import Mathlib

/-!
Verification of the semantic-analysis and code-generation core of the VSOP
compiler (`src/src/Code_Generation/SemanticAnalyzer.cpp`,
`src/src/Code_Generation/CodeGenerator.cpp` and the type checker of
`TypeChecker.hpp`'s implementation file) against its natural-language
specification.

The C++ code is embedded shallowly:

* `std::unordered_map` values become association lists (`List (String × α)`);
  lookup takes the first matching key, insertion replaces in place or appends.
  C++ iteration order over an `unordered_map` is unspecified, so passes that
  iterate such a map are modelled as folds over a list whose order stands for
  that unspecified iteration order; order-sensitive statements quantify over it.
* The C++ `while` loops that walk the parent chain of a class can diverge on a
  cyclic class table.  They are embedded with an explicit fuel of
  `defs.length + 1` steps, which is proved or argued sufficient wherever a
  theorem relies on the walk terminating (each loop visits pairwise-distinct
  keys of the table before stopping).
* Diagnostic strings are reproduced byte for byte (a single quote inside a
  message is written with the `\x27` escape).
-/

namespace VSOP

/-- Association-list lookup, mirroring `std::unordered_map::find`: the first
entry with the given key. -/
def lookupMap {α : Type} (m : List (String × α)) (k : String) : Option α :=
  match m with
  | [] => none
  | (k₂, v) :: rest => if k₂ = k then some v else lookupMap rest k

/-- `std::unordered_map` insert-or-assign (`m[k] = v`): replaces the value in
place when the key is present, appends the entry otherwise. -/
def setMap {α : Type} (m : List (String × α)) (k : String) (v : α) :
    List (String × α) :=
  match m with
  | [] => [(k, v)]
  | (k₂, v₂) :: rest =>
      if k₂ = k then (k₂, v) :: rest else (k₂, v₂) :: setMap rest k v

/-- `std::unordered_map::erase`: removes the entry with the given key. -/
def eraseMap {α : Type} (m : List (String × α)) (k : String) :
    List (String × α) :=
  m.filter (fun e => ¬ e.1 = k)

/-- `Type::Kind` of `SemanticAnalyzer.hpp`. -/
inductive Kind where
  | PRIMITIVE : Kind
  | CLASS : Kind
deriving DecidableEq, Repr

/-- The `Type` value class of `SemanticAnalyzer.hpp`: a name plus a kind tag.
`toString` is the name. -/
structure Ty where
  name : String
  kind : Kind
deriving DecidableEq, Repr

/-- `Type::Int32()`. -/
def Ty.Int32 : Ty := ⟨"int32", Kind.PRIMITIVE⟩

/-- `Type::Boolean()`. -/
def Ty.Boolean : Ty := ⟨"bool", Kind.PRIMITIVE⟩

/-- `Type::String()`. -/
def Ty.StringT : Ty := ⟨"string", Kind.PRIMITIVE⟩

/-- `Type::Unit()`. -/
def Ty.Unit : Ty := ⟨"unit", Kind.PRIMITIVE⟩

/-- `Type::Object()`. -/
def Ty.ObjectT : Ty := ⟨"Object", Kind.CLASS⟩

/-- `Type::Error()`. -/
def Ty.Error : Ty := ⟨"__error__", Kind.PRIMITIVE⟩

/-- `Type::isError()`. -/
def Ty.isError (t : Ty) : Bool := t.name = "__error__"

/-- `FormalParam` of `SemanticAnalyzer.hpp`: parameter name and type. -/
structure FormalParam where
  name : String
  type : Ty
deriving DecidableEq, Repr

/-- `MethodSignature` of `SemanticAnalyzer.hpp`. -/
structure MethodSignature where
  name : String
  parameters : List FormalParam
  returnType : Ty
deriving DecidableEq, Repr

/-- `ClassDef` of `SemanticAnalyzer.hpp`: name, parent name, field map and
method map (both `unordered_map`s, embedded as association lists). -/
structure ClassDef where
  name : String
  parent : String
  fields : List (String × Ty)
  methods : List (String × MethodSignature)
deriving DecidableEq, Repr

/-- The analyzer's `class_definitions` map. -/
abbrev Defs := List (String × ClassDef)

/-- The ancestor-chain walk inside `Type::conformsTo` (lines 23-29 of
`SemanticAnalyzer.cpp`): `current` starts at the left type's name; while
`current` is neither `"Object"` nor empty, step to the parent (a missing entry
stops with `false`) and succeed when the parent is the target name.  The fuel
replaces the unbounded `while`. -/
def conformsWalk (defs : Defs) : Nat → String → String → Bool
  | 0, _, _ => false
  | fuel + 1, current, target =>
      if current = "Object" ∨ current = "" then false
      else
        match lookupMap defs current with
        | none => false
        | some d => if d.parent = target then true else conformsWalk defs fuel d.parent target

/-- `Type::conformsTo` (`SemanticAnalyzer.cpp` lines 14-31): equal names and
either side `Error` conform; when either side is a primitive, conformance holds
exactly when the target is named `Object`; any class conforms to `Object`;
otherwise walk the left side's ancestor chain looking for the target. -/
def Ty.conformsTo (t : Ty) (other : Ty) (defs : Defs) : Bool :=
  if t.name = other.name then true
  else if t.isError ∨ other.isError then true
  else if t.kind = Kind.PRIMITIVE ∨ other.kind = Kind.PRIMITIVE then
    other.name = "Object"
  else if other.name = "Object" then true
  else conformsWalk defs (defs.length + 1) t.name other.name

/-- `MethodSignature::isCompatible` (`SemanticAnalyzer.cpp` lines 38-54):
return-type names equal, same parameter count, and parameter-type names equal
position by position. -/
def MethodSignature.isCompatible (s other : MethodSignature) : Bool :=
  if ¬ (s.returnType.name = other.returnType.name) ∨
      ¬ (s.parameters.length = other.parameters.length) then false
  else
    (List.zip s.parameters other.parameters).all
      (fun pq => pq.1.type.name = pq.2.type.name)

/-- `SemanticAnalyzer::resolveType` (`SemanticAnalyzer.cpp` lines 348-358). -/
def resolveType (defs : Defs) (typeName : String) : Ty :=
  if typeName = "int32" then Ty.Int32
  else if typeName = "bool" then Ty.Boolean
  else if typeName = "string" then Ty.StringT
  else if typeName = "unit" then Ty.Unit
  else if (lookupMap defs typeName).isSome then ⟨typeName, Kind.CLASS⟩
  else if typeName = "Object" then Ty.ObjectT
  else Ty.Error

/-- `SemanticAnalyzer::isTypeValid` (`SemanticAnalyzer.cpp` lines 340-346). -/
def isTypeValid (defs : Defs) (typeName : String) : Bool :=
  typeName = "int32" ∨ typeName = "bool" ∨ typeName = "string" ∨
    typeName = "unit" ∨ (lookupMap defs typeName).isSome

/-- `SemanticAnalyzer::findFieldType` (`SemanticAnalyzer.cpp` lines 372-387):
walk the ancestor chain from `current`, returning the first matching field;
stop at `Object`, an empty name or a missing table entry.  Fuel replaces the
unbounded loop. -/
def findFieldType (defs : Defs) : Nat → String → String → Option Ty
  | 0, _, _ => none
  | fuel + 1, current, fieldName =>
      if current = "" then none
      else
        match lookupMap defs current with
        | none => none
        | some cd =>
            match lookupMap cd.fields fieldName with
            | some t => some t
            | none =>
                if current = "Object" then none
                else findFieldType defs fuel cd.parent fieldName

/-- `SemanticAnalyzer::findMethodSignature` (`SemanticAnalyzer.cpp` lines
389-404): same walk as `findFieldType`, over the method maps. -/
def findMethodSignature (defs : Defs) : Nat → String → String → Option MethodSignature
  | 0, _, _ => none
  | fuel + 1, current, methodName =>
      if current = "" then none
      else
        match lookupMap defs current with
        | none => none
        | some cd =>
            match lookupMap cd.methods methodName with
            | some s => some s
            | none =>
                if current = "Object" then none
                else findMethodSignature defs fuel cd.parent methodName

/-- First loop of `SemanticAnalyzer::findCommonAncestor` (lines 422-430):
collect the full ancestor chain of a name into a set (embedded as the list of
inserted names); a missing table entry is the `Error` return, rendered `none`
(fuel exhaustion is rendered the same way and is unreachable with the fuel the
caller passes on a table whose chains terminate). -/
def ancestorsLoop (defs : Defs) : Nat → String → List String → Option (List String)
  | 0, _, _ => none
  | fuel + 1, current, acc =>
      if current = "" then some acc
      else
        let acc := current :: acc
        if current = "Object" then some acc
        else
          match lookupMap defs current with
          | none => none
          | some d => ancestorsLoop defs fuel d.parent acc

/-- Second loop of `SemanticAnalyzer::findCommonAncestor` (lines 432-443):
walk the second type's chain until a name in the first chain's set is found;
falls back to `Object` when the walk exhausts the chain. -/
def commonWalk (defs : Defs) (anc1 : List String) : Nat → String → Ty
  | 0, _ => Ty.Error
  | fuel + 1, current =>
      if current = "" then Ty.ObjectT
      else if current ∈ anc1 then ⟨current, Kind.CLASS⟩
      else if current = "Object" then Ty.ObjectT
      else
        match lookupMap defs current with
        | none => Ty.Error
        | some d => commonWalk defs anc1 fuel d.parent

/-- `SemanticAnalyzer::findCommonAncestor` (`SemanticAnalyzer.cpp` lines
407-444). -/
def findCommonAncestor (defs : Defs) (t1 t2 : Ty) : Ty :=
  if t1.isError ∨ t2.isError then Ty.Error
  else if ¬ isTypeValid defs t1.name ∨ ¬ isTypeValid defs t2.name then Ty.Error
  else if t1.name = t2.name then t1
  else if t1.conformsTo t2 defs then t2
  else if t2.conformsTo t1 defs then t1
  else if t1.kind = Kind.PRIMITIVE ∨ t2.kind = Kind.PRIMITIVE then Ty.ObjectT
  else
    match ancestorsLoop defs (defs.length + 1) t1.name [] with
    | none => Ty.Error
    | some anc1 => commonWalk defs anc1 (defs.length + 1) t2.name

/-- The loop of `ClassDef::hasCyclicInheritance` (`SemanticAnalyzer.cpp` lines
57-77): walk the parent chain with a visited set, reporting a cycle when a name
repeats or the walk returns to the starting class; stop with `false` at
`Object`, an empty name or a missing entry. -/
def hasCyclicLoop (defs : Defs) (name : String) : Nat → List String → String → Bool
  | 0, _, _ => false
  | fuel + 1, visited, current =>
      if current = "Object" ∨ current = "" then false
      else if current ∈ visited then true
      else
        match lookupMap defs current with
        | none => false
        | some d =>
            if d.parent = name then true
            else hasCyclicLoop defs name fuel (current :: visited) d.parent

/-- `ClassDef::hasCyclicInheritance`. -/
def ClassDef.hasCyclicInheritance (cd : ClassDef) (defs : Defs) : Bool :=
  hasCyclicLoop defs cd.name (defs.length + 1) [] cd.name

/-- The expressions of `AST.hpp` (one inductive for the `Expression`
hierarchy).  Children the parser never leaves null are direct subterms;
`Call`'s receiver, `Let`'s initializer and `If`'s else branch can be null and
are `Option`s. -/
inductive Expr where
  | BinaryOpE (op : String) (left right : Expr)
  | UnaryOpE (op : String) (e : Expr)
  | CallE (object : Option Expr) (method_name : String) (arguments : List Expr)
  | NewE (type_name : String)
  | LetE (name ty : String) (init_expr : Option Expr) (scope_expr : Expr)
  | IfE (condition then_expr : Expr) (else_expr : Option Expr)
  | WhileE (condition body : Expr)
  | AssignE (name : String) (e : Expr)
  | StringLit (v : String)
  | IntegerLit (v : Int)
  | BooleanLit (v : Bool)
  | UnitLit
  | IdentifierE (name : String)
  | SelfE
  | BlockE (expressions : List Expr)

/-- `Formal` AST node. -/
structure FormalNode where
  name : String
  type : String
deriving DecidableEq, Repr

/-- `Field` AST node. -/
structure FieldNode where
  name : String
  type : String
  init_expr : Option Expr

/-- `Method` AST node (`body` can be null). -/
structure MethodNode where
  name : String
  formals : List FormalNode
  return_type : String
  body : Option Expr

/-- `Class` AST node. -/
structure ClassNode where
  name : String
  parent : String
  fields : List FieldNode
  methods : List MethodNode

/-- The `Object` entry seeded by `SemanticAnalyzer::initObjectMethods`
(`SemanticAnalyzer.cpp` lines 101-121). -/
def objectClassDef : ClassDef :=
  ⟨"Object", "", [],
    [("print", ⟨"print", [⟨"s", Ty.StringT⟩], Ty.ObjectT⟩),
     ("printInt32", ⟨"printInt32", [⟨"i", Ty.Int32⟩], Ty.ObjectT⟩),
     ("inputInt32", ⟨"inputInt32", [], Ty.Int32⟩),
     ("inputString", ⟨"inputString", [], Ty.StringT⟩),
     ("printBool", ⟨"printBool", [⟨"b", Ty.Boolean⟩], Ty.ObjectT⟩),
     ("inputBool", ⟨"inputBool", [], Ty.Boolean⟩),
     ("inputLine", ⟨"inputLine", [], Ty.StringT⟩)]⟩

/-- Output of `SemanticAnalyzer::buildClassDefinitions`: the accepted AST
nodes (`class_table`, in insertion order), the built `class_definitions`
map, and the accumulated errors. -/
structure BuildResult where
  class_table : List ClassNode
  defs : Defs
  errors : List String

/-- One iteration of the loop in `SemanticAnalyzer::buildClassDefinitions`
(`SemanticAnalyzer.cpp` lines 169-198); the extra list is `defined_classes`. -/
def buildStep (acc : BuildResult × List String) (cls : ClassNode) :
    BuildResult × List String :=
  let (b, defined) := acc
  if cls.name = "int32" ∨ cls.name = "bool" ∨ cls.name = "string" ∨
      cls.name = "unit" then
    (⟨b.class_table, b.defs,
       b.errors ++ ["Cannot redefine primitive type: " ++ cls.name]⟩, defined)
  else if cls.name = "Object" then
    (⟨b.class_table, b.defs,
       b.errors ++ ["Class Object cannot be redefined"]⟩, defined)
  else if cls.name ∈ defined then
    (⟨b.class_table, b.defs,
       b.errors ++ ["Redefinition of class " ++ cls.name]⟩, defined)
  else
    (⟨b.class_table ++ [cls],
       setMap b.defs cls.name
         ⟨cls.name, if cls.parent = "" then "Object" else cls.parent, [], []⟩,
       b.errors⟩,
     cls.name :: defined)

/-- `SemanticAnalyzer::buildClassDefinitions`, starting from the seeded
`Object` definition. -/
def buildClassDefinitions (program : List ClassNode) : BuildResult :=
  (program.foldl buildStep (⟨[], [("Object", objectClassDef)], []⟩, ["Object"])).1

/-- The checks `SemanticAnalyzer::validateInheritanceHierarchy` performs on one
`class_definitions` entry (`SemanticAnalyzer.cpp` lines 201-220). -/
def validateEntry (defs : Defs) (e : String × ClassDef) : List String :=
  let (name, class_def) := e
  if name = "Object" then []
  else if class_def.parent = "int32" ∨ class_def.parent = "bool" ∨
      class_def.parent = "string" ∨ class_def.parent = "unit" then
    ["Class " ++ name ++ " cannot extend primitive type " ++ class_def.parent]
  else if lookupMap defs class_def.parent = none then
    ["Class " ++ name ++ " extends undefined class " ++ class_def.parent]
  else if class_def.hasCyclicInheritance defs then
    ["Class " ++ name ++ " has cyclic inheritance"]
  else []

/-- `SemanticAnalyzer::validateInheritanceHierarchy`, iterating the map in the
order of the embedding list (the C++ `unordered_map` order is unspecified;
whether the result is empty does not depend on it). -/
def validateInheritanceHierarchy (defs : Defs) : List String :=
  defs.foldl (fun errs e => errs ++ validateEntry defs e) []

/-- Read-modify-write of one `class_definitions` entry, as the C++ reference
`auto& class_def = class_definitions[name]` does (`operator[]`
default-constructs a missing entry). -/
def updateClass (defs : Defs) (name : String) (f : ClassDef → ClassDef) : Defs :=
  setMap defs name (f ((lookupMap defs name).getD ⟨"", "", [], []⟩))

/-- The field loop of `SemanticAnalyzer::collectMethodsAndFields`
(`SemanticAnalyzer.cpp` lines 234-261) for one field node; the accumulator
carries `class_definitions`, the error list and `local_field_names`. -/
def collectFieldStep (clsName parentName : String)
    (acc : Defs × List String × List String) (fn : FieldNode) :
    Defs × List String × List String :=
  let (defs, errors, localNames) := acc
  if fn.name ∈ localNames then
    (defs,
     errors ++ ["Field " ++ fn.name ++ " is already defined in class " ++ clsName],
     localNames)
  else
    let localNames := fn.name :: localNames
    if (findFieldType defs (defs.length + 1) parentName fn.name).isSome then
      (defs,
       errors ++ ["Field " ++ fn.name ++ " in class " ++ clsName ++
         " cannot shadow a field from an ancestor class."],
       localNames)
    else
      let field_type := resolveType defs fn.type
      if field_type.isError then
        (defs,
         errors ++ ["Unknown type " ++ fn.type ++ " for field " ++ fn.name ++
           " in class " ++ clsName],
         localNames)
      else
        (updateClass defs clsName
           (fun cd => ⟨cd.name, cd.parent, setMap cd.fields fn.name field_type, cd.methods⟩),
         errors, localNames)

/-- The formal-parameter loop inside the method loop of
`collectMethodsAndFields` (`SemanticAnalyzer.cpp` lines 276-306): accumulates
the built parameter list, the seen parameter names, the error flag and the
error messages. -/
def collectFormalStep (defs : Defs) (methodName : String)
    (acc : List FormalParam × List String × Bool × List String)
    (formal : FormalNode) :
    List FormalParam × List String × Bool × List String :=
  let (params, paramNames, flag, errors) := acc
  let (flag, errors) :=
    if formal.name ∈ paramNames then
      (true, errors ++ ["Duplicate parameter name " ++ formal.name ++
        " in method " ++ methodName])
    else (flag, errors)
  let paramNames := formal.name :: paramNames
  let (flag, errors) :=
    if formal.name = "self" then
      (true, errors ++ ["Parameter name cannot be \x27self\x27 in method " ++ methodName])
    else (flag, errors)
  let param_type := resolveType defs formal.type
  let (flag, errors) :=
    if param_type.isError then
      (true, errors ++ ["Unknown type " ++ formal.type ++ " for parameter " ++
        formal.name ++ " in method " ++ methodName])
    else (flag, errors)
  (params ++ [⟨formal.name, param_type⟩], paramNames, flag, errors)

/-- The method loop of `collectMethodsAndFields` (`SemanticAnalyzer.cpp` lines
264-334) for one method node; the accumulator carries `class_definitions`, the
error list and `local_method_names`. -/
def collectMethodStep (clsName parentName : String)
    (acc : Defs × List String × List String) (mn : MethodNode) :
    Defs × List String × List String :=
  let (defs, errors, localNames) := acc
  if mn.name ∈ localNames then
    (defs,
     errors ++ ["Method " ++ mn.name ++ " is already defined in class " ++ clsName],
     localNames)
  else
    let localNames := mn.name :: localNames
    let (formal_params, _, flag, errors) :=
      mn.formals.foldl (collectFormalStep defs mn.name) ([], [], false, errors)
    let return_type := resolveType defs mn.return_type
    let (flag, errors) :=
      if return_type.isError then
        (true, errors ++ ["Unknown return type " ++ mn.return_type ++
          " for method " ++ mn.name])
      else (flag, errors)
    if flag then (defs, errors, localNames)
    else
      let current_sig : MethodSignature := ⟨mn.name, formal_params, return_type⟩
      match findMethodSignature defs (defs.length + 1) parentName mn.name with
      | some parent_sig =>
          if ¬ current_sig.isCompatible parent_sig then
            (defs,
             errors ++ ["Method " ++ mn.name ++ " in class " ++ clsName ++
               " overrides parent method with incompatible signature."],
             localNames)
          else
            (updateClass defs clsName
               (fun cd => ⟨cd.name, cd.parent, cd.fields,
                 setMap cd.methods mn.name current_sig⟩),
             errors, localNames)
      | none =>
          (updateClass defs clsName
             (fun cd => ⟨cd.name, cd.parent, cd.fields,
               setMap cd.methods mn.name current_sig⟩),
           errors, localNames)

/-- `collectMethodsAndFields` for one class of `class_table`: the reference
`class_definitions[name]` default-constructs a missing entry, then the field
loop and the method loop run. -/
def collectClass (acc : Defs × List String) (cls : ClassNode) : Defs × List String :=
  let (defs, errors) := acc
  let defs :=
    if lookupMap defs cls.name = none then setMap defs cls.name ⟨"", "", [], []⟩
    else defs
  let parentName := ((lookupMap defs cls.name).getD ⟨"", "", [], []⟩).parent
  let (defs, errors, _) :=
    cls.fields.foldl (collectFieldStep cls.name parentName) (defs, errors, [])
  let (defs, errors, _) :=
    cls.methods.foldl (collectMethodStep cls.name parentName) (defs, errors, [])
  (defs, errors)

/-- `SemanticAnalyzer::collectMethodsAndFields` over `class_table`; the C++
iterates an `unordered_map` whose order is unspecified, so the order is the
embedding list's order and order-sensitive statements quantify over it. -/
def collectMethodsAndFields (order : List ClassNode) (defs : Defs) :
    Defs × List String :=
  order.foldl collectClass (defs, [])

/-- The `Main`/`main` checks at the end of `SemanticAnalyzer::analyze`
(`SemanticAnalyzer.cpp` lines 147-164). -/
def mainCheck (defs : Defs) : List String :=
  match lookupMap defs "Main" with
  | none => ["Program must have a Main class"]
  | some main_def =>
      match lookupMap main_def.methods "main" with
      | none => ["Main class must have a main method"]
      | some main_sig =>
          (if ¬ main_sig.parameters = [] then
            ["Main.main method must not have parameters"] else []) ++
          (if ¬ main_sig.returnType.name = "int32" then
            ["Main.main method must have return type int32"] else [])

/-- What `SemanticAnalyzer::analyze` returns, plus which gated passes ran
(renders the early `return false` exits of lines 138-145). -/
structure AnalyzeResult where
  returnValue : Bool
  errors : List String
  ranValidate : Bool
  ranCollect : Bool
deriving DecidableEq, Repr

/-- `SemanticAnalyzer::analyze` (`SemanticAnalyzer.cpp` lines 123-167): build
the class definitions, stop if that errored; validate the hierarchy, stop if
that errored; collect members, stop if that errored; finally check
`Main.main`.  Member collection iterates `class_table` in insertion order
(standing for the unspecified `unordered_map` order). -/
def analyze (program : List ClassNode) : AnalyzeResult :=
  let b := buildClassDefinitions program
  if ¬ b.errors = [] then ⟨false, b.errors, false, false⟩
  else
    let errors := b.errors ++ validateInheritanceHierarchy b.defs
    if ¬ errors = [] then ⟨false, errors, true, false⟩
    else
      let (defs, errors2) := collectMethodsAndFields b.class_table b.defs
      let errors := errors ++ errors2
      if ¬ errors = [] then ⟨false, errors, true, true⟩
      else
        let errors := errors ++ mainCheck defs
        ⟨errors = [], errors, true, true⟩

/-- The `TypeChecker`'s fixed context while visiting expressions: the source
file name used by `reportError`, the analyzer's `class_definitions`, and
`current_class`. -/
structure TCCtx where
  source_file : String
  defs : Defs
  current_class : String

/-- The `TypeChecker`'s mutable state while visiting expressions: the lexical
`scopes` list (front = innermost) and the accumulated `errors`. -/
structure TCState where
  scopes : List (List (String × String))
  errors : List String
deriving DecidableEq, Repr

/-- `TypeChecker::reportError` with the default location `1:1` every
expression visitor uses: formats the message and appends it unless the same
string was already recorded. -/
def reportErrorTC (ctx : TCCtx) (st : TCState) (message : String) : TCState :=
  let error := ctx.source_file ++ ":1:1: semantic error: " ++ message
  if error ∈ st.errors then st else ⟨st.scopes, st.errors ++ [error]⟩

/-- The scope part of `TypeChecker::lookupSymbol`: front-to-back search of the
lexical frames. -/
def lookupScopes : List (List (String × String)) → String → Option String
  | [], _ => none
  | sc :: rest, n =>
      match lookupMap sc n with
      | some t => some t
      | none => lookupScopes rest n

/-- `TypeChecker::lookupSymbol` (lexical scopes first, then the current
class's field chain through the analyzer; `__error__` when unresolved). -/
def lookupSymbol (ctx : TCCtx) (st : TCState) (name : String) : String :=
  match lookupScopes st.scopes name with
  | some t => t
  | none =>
      if ¬ ctx.current_class = "" then
        match findFieldType ctx.defs (ctx.defs.length + 1) ctx.current_class name with
        | some t => t.name
        | none => "__error__"
      else "__error__"

/-- `TypeChecker::isSubtypeOf`. -/
def isSubtypeOf (ctx : TCCtx) (subtype_name supertype_name : String) : Bool :=
  if subtype_name = supertype_name then true
  else if subtype_name = "__error__" ∨ supertype_name = "__error__" then true
  else
    let subtype := resolveType ctx.defs subtype_name
    let supertype := resolveType ctx.defs supertype_name
    if subtype.isError ∨ supertype.isError then false
    else subtype.conformsTo supertype ctx.defs

/-- `TypeChecker::getCommonAncestor`. -/
def getCommonAncestorTC (ctx : TCCtx) (type1_name type2_name : String) : String :=
  let type1 := resolveType ctx.defs type1_name
  let type2 := resolveType ctx.defs type2_name
  if type1.isError ∨ type2.isError then "__error__"
  else (findCommonAncestor ctx.defs type1 type2).name

/-- The per-argument conformance loop of `TypeChecker::getMethodReturnType`:
the first argument whose type does not conform to the parameter's reports
a mismatch and yields `__error__`. -/
def argCheckLoop (ctx : TCCtx) (st : TCState) (methodName className : String)
    (signature : MethodSignature) (argTypes : List String) :
    Nat → List (FormalParam × String) → String × TCState
  | _, [] => (signature.returnType.name, st)
  | i, (p, a) :: rest =>
      if ¬ isSubtypeOf ctx a p.type.name then
        ("__error__",
         reportErrorTC ctx st ("Argument type mismatch calling \x27" ++ methodName ++
           "\x27 on " ++ className ++ ". Parameter " ++ toString (i + 1) ++
           " expected " ++ p.type.name ++ ", got " ++ a ++
           ". Full signature: (" ++
           String.intercalate ", " (signature.parameters.map (fun q => q.type.name)) ++
           "), call: (" ++ String.intercalate ", " argTypes ++ ")"))
      else argCheckLoop ctx st methodName className signature argTypes (i + 1) rest

/-- `TypeChecker::getMethodReturnType` (the helper at the end of the type
checker): resolve the method through the analyzer; on failure try the built-in
`Object` methods, else report not-found; on success check arity and argument
conformance and return the declared return type. -/
def getMethodReturnType (ctx : TCCtx) (st : TCState)
    (className methodName : String) (argTypes : List String) : String × TCState :=
  match findMethodSignature ctx.defs (ctx.defs.length + 1) className methodName with
  | none =>
      let builtin : Option String :=
        if className = "Object" then
          if methodName = "print" then
            match argTypes with
            | [a] => if isSubtypeOf ctx a "string" then some "Object" else none
            | _ => none
          else if methodName = "printInt32" then
            match argTypes with
            | [a] => if isSubtypeOf ctx a "int32" then some "Object" else none
            | _ => none
          else if methodName = "inputInt32" then
            if argTypes = [] then some "int32" else none
          else if methodName = "inputString" then
            if argTypes = [] then some "string" else none
          else none
        else none
      match builtin with
      | some t => (t, st)
      | none =>
          ("__error__",
           reportErrorTC ctx st ("Method \x27" ++ methodName ++
             "\x27 with argument types (" ++ String.intercalate ", " argTypes ++
             ") not found in class \x27" ++ className ++ "\x27 or its ancestors."))
  | some signature =>
      if ¬ signature.parameters.length = argTypes.length then
        ("__error__",
         reportErrorTC ctx st ("Method \x27" ++ methodName ++
           "\x27 called with wrong number of arguments. Expected " ++
           toString signature.parameters.length ++ ", got " ++
           toString argTypes.length ++ " (" ++
           String.intercalate ", " argTypes ++ ")"))
      else
        argCheckLoop ctx st methodName className signature argTypes 0
          (List.zip signature.parameters argTypes)

/-- The `left_is_prim`/`right_is_prim` test of the equality branch of
`TypeChecker::visit(const BinaryOp*)`: `int32`, `bool` or `string` (`unit` is
handled separately before it). -/
def eqPrimName (t : String) : Bool :=
  t = "int32" ∨ t = "bool" ∨ t = "string"

/-- The `op == "="` branch of `TypeChecker::visit(const BinaryOp*)` (equality
typing): unit only with unit, equal types fine, primitive against class and
distinct primitives rejected; the result type is always `bool`. -/
def tcEquality (ctx : TCCtx) (st : TCState) (left_type right_type : String) :
    String × TCState :=
  let left_is_prim : Bool := eqPrimName left_type
  let right_is_prim : Bool := eqPrimName right_type
  let st :=
    if left_type = "unit" ∨ right_type = "unit" then
      if left_type = "unit" ∧ right_type = "unit" then st
      else reportErrorTC ctx st "Type unit can only be compared for equality with unit"
    else if left_type = right_type then st
    else if ¬ left_is_prim = right_is_prim then
      reportErrorTC ctx st ("Cannot compare primitive type " ++
        (if left_is_prim then left_type else right_type) ++ " with class type " ++
        (if left_is_prim then right_type else left_type))
    else if left_is_prim ∧ right_is_prim then
      reportErrorTC ctx st ("Cannot compare distinct primitive types " ++
        left_type ++ " and " ++ right_type)
    else st
  ("bool", st)

mutual

/-- The expression visitors of the `TypeChecker` (`visit(const BinaryOp*)`
through `visit(const Block*)`), as one function from an expression and the
current state to the expression's recorded type and the new state.  The
visitor's recursion is structural on the expression; the embedding adds a fuel
argument (first, decreasing at every recursive call) so that the definition
evaluates by kernel reduction; any fuel at least the expression's size gives
the visitor's value, and fuel exhaustion yields the `__error__` type. -/
def tcExpr (ctx : TCCtx) : Nat → TCState → Expr → String × TCState
  | 0, st, _ => ("__error__", st)
  | fuel + 1, st, .BinaryOpE op l r =>
      let (left_type, st) := tcExpr ctx fuel st l
      let (right_type, st) := tcExpr ctx fuel st r
      if left_type = "__error__" ∨ right_type = "__error__" then ("__error__", st)
      else if op = "and" then
        let st :=
          if ¬ left_type = "bool" then
            reportErrorTC ctx st ("Left operand of \x27and\x27 must be bool, got " ++ left_type)
          else st
        let st :=
          if ¬ right_type = "bool" then
            reportErrorTC ctx st ("Right operand of \x27and\x27 must be bool, got " ++ right_type)
          else st
        ((if left_type = "bool" ∧ right_type = "bool" then "bool" else "__error__"), st)
      else if op = "=" then tcEquality ctx st left_type right_type
      else if op = "<" ∨ op = "<=" then
        let st :=
          if ¬ left_type = "int32" then
            reportErrorTC ctx st ("Left operand of \x27" ++ op ++ "\x27 must be int32, got " ++ left_type)
          else st
        let st :=
          if ¬ right_type = "int32" then
            reportErrorTC ctx st ("Right operand of \x27" ++ op ++ "\x27 must be int32, got " ++ right_type)
          else st
        ((if left_type = "int32" ∧ right_type = "int32" then "bool" else "__error__"), st)
      else if op = "+" ∨ op = "-" ∨ op = "*" ∨ op = "/" ∨ op = "^" then
        let st :=
          if ¬ left_type = "int32" then
            reportErrorTC ctx st ("Left operand of \x27" ++ op ++ "\x27 must be int32, got " ++ left_type)
          else st
        let st :=
          if ¬ right_type = "int32" then
            reportErrorTC ctx st ("Right operand of \x27" ++ op ++ "\x27 must be int32, got " ++ right_type)
          else st
        ((if left_type = "int32" ∧ right_type = "int32" then "int32" else "__error__"), st)
      else ("__error__", reportErrorTC ctx st ("Unknown binary operator: " ++ op))
  | fuel + 1, st, .UnaryOpE op e =>
      let (operand_type, st) := tcExpr ctx fuel st e
      if operand_type = "__error__" then ("__error__", st)
      else if op = "not" then
        if ¬ operand_type = "bool" then
          ("__error__", reportErrorTC ctx st ("Operand of \x27not\x27 must be bool, got " ++ operand_type))
        else ("bool", st)
      else if op = "-" then
        if ¬ operand_type = "int32" then
          ("__error__", reportErrorTC ctx st ("Operand of unary \x27-\x27 must be int32, got " ++ operand_type))
        else ("int32", st)
      else if op = "isnull" then
        if operand_type = "int32" ∨ operand_type = "bool" ∨
            operand_type = "string" ∨ operand_type = "unit" then
          ("__error__", reportErrorTC ctx st ("Operand of \x27isnull\x27 cannot be primitive type " ++ operand_type))
        else ("bool", st)
      else ("__error__", reportErrorTC ctx st ("Unknown unary operator: " ++ op))
  | fuel + 1, st, .CallE objOpt method_name arguments =>
      match objOpt with
      | none =>
          let object_type := lookupSymbol ctx st "self"
          if object_type = "__error__" then
            ("__error__",
             reportErrorTC ctx st ("Call to method \x27" ++ method_name ++
               "\x27 on \x27self\x27 outside class context"))
          else if object_type = "int32" ∨ object_type = "bool" ∨
              object_type = "string" ∨ object_type = "unit" then
            ("__error__",
             reportErrorTC ctx st ("Cannot call method \x27" ++ method_name ++
               "\x27 on primitive type " ++ object_type))
          else
            let (arg_types, arg_error, st) := tcArgList ctx fuel st arguments
            if arg_error then ("__error__", st)
            else getMethodReturnType ctx st object_type method_name arg_types
      | some obj =>
          let (object_type, st) := tcExpr ctx fuel st obj
          if object_type = "__error__" then ("__error__", st)
          else if object_type = "int32" ∨ object_type = "bool" ∨
              object_type = "string" ∨ object_type = "unit" then
            ("__error__",
             reportErrorTC ctx st ("Cannot call method \x27" ++ method_name ++
               "\x27 on primitive type " ++ object_type))
          else
            let (arg_types, arg_error, st) := tcArgList ctx fuel st arguments
            if arg_error then ("__error__", st)
            else getMethodReturnType ctx st object_type method_name arg_types
  | _ + 1, st, .NewE type_name =>
      if ¬ isTypeValid ctx.defs type_name then
        ("__error__",
         reportErrorTC ctx st ("Unknown type \x27" ++ type_name ++ "\x27 in \x27new\x27 expression"))
      else if type_name = "int32" ∨ type_name = "bool" ∨
          type_name = "string" ∨ type_name = "unit" then
        ("__error__",
         reportErrorTC ctx st ("Cannot instantiate primitive or unit type with \x27new\x27: " ++ type_name))
      else (type_name, st)
  | fuel + 1, st, .LetE name ty init scope =>
      let (declared_type, st) :=
        if ¬ isTypeValid ctx.defs ty then
          ("__error__",
           reportErrorTC ctx st ("Unknown type \x27" ++ ty ++
             "\x27 in \x27let\x27 for variable \x27" ++ name ++ "\x27"))
        else (ty, st)
      let st :=
        match init with
        | none => st
        | some ie =>
            let (init_type, st) := tcExpr ctx fuel st ie
            if ¬ declared_type = "__error__" ∧ ¬ init_type = "__error__" then
              if ¬ isSubtypeOf ctx init_type declared_type then
                reportErrorTC ctx st ("Variable \x27" ++ name ++
                  "\x27 initialized with incompatible type: expected " ++
                  declared_type ++ ", got " ++ init_type)
              else st
            else st
      let (scope_type, st) := tcExpr ctx fuel ⟨[(name, declared_type)] :: st.scopes, st.errors⟩ scope
      let st : TCState := ⟨st.scopes.tail, st.errors⟩
      ((if declared_type = "__error__" then "__error__" else scope_type), st)
  | fuel + 1, st, .IfE condition then_expr elseOpt =>
      let (condition_type, st) := tcExpr ctx fuel st condition
      let st :=
        if ¬ condition_type = "bool" ∧ ¬ condition_type = "__error__" then
          reportErrorTC ctx st ("If condition must be bool, got " ++ condition_type)
        else st
      let (then_type, st) := tcExpr ctx fuel st then_expr
      let (else_type, st) :=
        match elseOpt with
        | none => ("unit", st)
        | some e => tcExpr ctx fuel st e
      if condition_type = "__error__" ∨ then_type = "__error__" ∨
          (elseOpt.isSome ∧ else_type = "__error__") then ("__error__", st)
      else
        match elseOpt with
        | none => ("unit", st)
        | some _ => (getCommonAncestorTC ctx then_type else_type, st)
  | fuel + 1, st, .WhileE condition body =>
      let (condition_type, st) := tcExpr ctx fuel st condition
      let st :=
        if ¬ condition_type = "bool" ∧ ¬ condition_type = "__error__" then
          reportErrorTC ctx st ("While condition must be bool, got " ++ condition_type)
        else st
      let (body_type, st) := tcExpr ctx fuel st body
      ((if condition_type = "__error__" ∨ body_type = "__error__" then "__error__" else "unit"), st)
  | fuel + 1, st, .AssignE name e =>
      let var_type := lookupSymbol ctx st name
      if var_type = "__error__" then
        ("__error__", reportErrorTC ctx st ("Assignment to undefined variable: " ++ name))
      else if name = "self" then
        ("__error__", reportErrorTC ctx st "Cannot assign to \x27self\x27")
      else
        let (expr_type, st) := tcExpr ctx fuel st e
        if expr_type = "__error__" then ("__error__", st)
        else
          let st :=
            if ¬ isSubtypeOf ctx expr_type var_type then
              reportErrorTC ctx st ("Cannot assign value of type " ++ expr_type ++
                " to variable \x27" ++ name ++ "\x27 of type " ++ var_type)
            else st
          (expr_type, st)
  | _ + 1, st, .StringLit _ => ("string", st)
  | _ + 1, st, .IntegerLit _ => ("int32", st)
  | _ + 1, st, .BooleanLit _ => ("bool", st)
  | _ + 1, st, .UnitLit => ("unit", st)
  | _ + 1, st, .IdentifierE name =>
      let t := lookupSymbol ctx st name
      let st :=
        if t = "__error__" then
          reportErrorTC ctx st ("Undefined identifier: " ++ name)
        else st
      (t, st)
  | _ + 1, st, .SelfE =>
      let t := lookupSymbol ctx st "self"
      let st :=
        if t = "__error__" then
          reportErrorTC ctx st "Use of \x27self\x27 outside of a class method context"
        else st
      (t, st)
  | _ + 1, st, .BlockE [] => ("unit", st)
  | fuel + 1, st, .BlockE (e :: rest) =>
      let (last_expr_type, error_in_block, st) := tcBlockList ctx fuel st (e :: rest)
      ((if error_in_block then "__error__" else last_expr_type), st)

/-- The argument loop of `visit(const Call*)`: type each argument, collect the
types and whether any was `__error__`. -/
def tcArgList (ctx : TCCtx) : Nat → TCState → List Expr → List String × Bool × TCState
  | 0, st, _ => ([], false, st)
  | _ + 1, st, [] => ([], false, st)
  | fuel + 1, st, a :: rest =>
      let (t, st) := tcExpr ctx fuel st a
      let (ts, flag, st) := tcArgList ctx fuel st rest
      (t :: ts, (flag ∨ t = "__error__" : Bool), st)

/-- The loop of `visit(const Block*)` on a non-empty expression list: type each
sub-expression, remember the last type and whether any was `__error__`. -/
def tcBlockList (ctx : TCCtx) : Nat → TCState → List Expr → String × Bool × TCState
  | 0, st, _ => ("unit", false, st)
  | _ + 1, st, [] => ("unit", false, st)
  | fuel + 1, st, [e] =>
      let (t, st) := tcExpr ctx fuel st e
      (t, (t = "__error__" : Bool), st)
  | fuel + 1, st, e :: rest =>
      let (t, st) := tcExpr ctx fuel st e
      let (last_expr_type, flag, st) := tcBlockList ctx fuel st rest
      (last_expr_type, (flag ∨ t = "__error__" : Bool), st)

end

/-- One slot of an emitted class struct type. -/
inductive Slot where
  | vtablePtr (cls : String)
  | parentPtr (cls : String)
  | fieldSlot (name : String) (ty : String)
deriving DecidableEq, Repr

/-- The struct layout `CodeGenerator::generateClassTypes` gives a class
(`CodeGenerator.cpp` lines 221-258, with `Object`'s body set by
`includeRuntimeCode` to a single vtable pointer): for every other class, slot
0 is a pointer to the parent class struct, followed by the class's own fields
only (the parent's field slots are not copied; the later update pass of
`generateClassVTables` lines 469-509 touches only still-opaque types, and
every class body is already set here, so this is the final layout).
Primitive names get no struct. -/
def classLayout (defs : Defs) (class_name : String) : List Slot :=
  if class_name = "Object" then [Slot.vtablePtr "Object"]
  else if class_name = "int32" ∨ class_name = "bool" ∨
      class_name = "string" ∨ class_name = "unit" then []
  else
    match lookupMap defs class_name with
    | none => []
    | some class_def =>
        let parent_name := if class_def.parent = "" then "Object" else class_def.parent
        Slot.parentPtr parent_name ::
          class_def.fields.map (fun ft => Slot.fieldSlot ft.1 ft.2.name)

/-- The struct index `CodeGenerator::generateIdentifier` (line 1201) and
`CodeGenerator::generateAssign` (line 1416) use for every field access:
the constant 1 (`int field_idx = 1; // Skip the vtable pointer`),
independent of which field is accessed. -/
def fieldAccessIndex (_fieldName : String) : Nat := 1

/-- `CodeGenerator::reportError`: prefix the message and append it unless the
same string was already recorded. -/
def reportErrorCG (source_file : String) (errors : List String) (message : String) :
    List String :=
  let error := source_file ++ ": code generation error: " ++ message
  if error ∈ errors then errors else errors ++ [error]

/-- State of step 1 of `CodeGenerator::generateClassVTables`
(`CodeGenerator.cpp` lines 260-321): `class_vtable_methods` (ordered method
names per class — the slot order) and `class_method_implementations`
(method name to implementing function name per class). -/
structure VTState where
  tables : List (String × List String)
  impls : List (String × List (String × String))
  errors : List String
deriving DecidableEq, Repr

/-- The hardcoded `Object` method list seeding the vtables
(`CodeGenerator.cpp` lines 268-270). -/
def objectVTableMethods : List String :=
  ["print", "printInt32", "printBool", "inputInt32", "inputString", "inputBool", "inputLine"]

/-- The initial vtable state: `Object`'s table and its `Object__`-prefixed
implementations (`CodeGenerator.cpp` lines 272-275). -/
def initVTState : VTState :=
  ⟨[("Object", objectVTableMethods)],
   [("Object", objectVTableMethods.map (fun m => (m, "Object__" ++ m)))],
   []⟩

/-- The add-or-override loop over one class's own methods
(`CodeGenerator.cpp` lines 302-320): a name already in the vtable keeps its
slot and gets this class's implementation; a new name is appended and gets
this class's implementation. -/
def vtMethodStep (class_name : String)
    (acc : List String × List (String × String)) (entry : String × MethodSignature) :
    List String × List (String × String) :=
  let (tbl, imp) := acc
  let method_name := entry.1
  if method_name ∈ tbl then
    (tbl, setMap imp method_name (class_name ++ "__" ++ method_name))
  else
    (tbl ++ [method_name], setMap imp method_name (class_name ++ "__" ++ method_name))

/-- Processing of one `class_definitions` entry by step 1 of
`generateClassVTables` (`CodeGenerator.cpp` lines 278-321): skip `Object` and
primitives; inherit the parent's table and implementations when the parent
already has one, else report `Parent class not found in vtable creation` and
leave the class without a table; then add/override the class's own methods. -/
def vtStep (source_file : String) (st : VTState) (entry : String × ClassDef) : VTState :=
  let (class_name, class_def) := entry
  if class_name = "Object" ∨ class_name = "int32" ∨ class_name = "bool" ∨
      class_name = "string" ∨ class_name = "unit" then st
  else
    let parent_name := if class_def.parent = "" then "Object" else class_def.parent
    match lookupMap st.tables parent_name with
    | none =>
        ⟨st.tables, st.impls,
         reportErrorCG source_file st.errors
           ("Parent class not found in vtable creation: " ++ parent_name)⟩
    | some parent_table =>
        let parent_impls := (lookupMap st.impls parent_name).getD []
        let (tbl, imp) :=
          class_def.methods.foldl (vtMethodStep class_name) (parent_table, parent_impls)
        ⟨setMap st.tables class_name tbl, setMap st.impls class_name imp, st.errors⟩

/-- Step 1 of `CodeGenerator::generateClassVTables`, iterating
`class_definitions`; the C++ iterates an `unordered_map`, so the embedding
list's order stands for that unspecified iteration order. -/
def generateClassVTables (source_file : String) (defs : Defs) : VTState :=
  defs.foldl (vtStep source_file) initVTState

/-- A value the expression emitter produces (the `llvm::Value*` results of the
`generate*` functions, restricted to what the scoping fragment below builds). -/
inductive GVal where
  | constInt (n : Int)
  | constBool (b : Bool)
  | strConst (s : String)
  | nullPtr (ty : String)
  | fieldLoad (name : String)
  | argRef (name : String)
deriving DecidableEq, Repr

/-- The emitter's fixed context: source file, class table, `current_class`. -/
structure GenCtx where
  source_file : String
  defs : Defs
  current_class : String

/-- The emitter's mutable state relevant to scoping: the flat `current_vars`
map (`unordered_map<string, llvm::Value*>`) and the error list. -/
structure GenState where
  current_vars : List (String × GVal)
  errors : List String
deriving DecidableEq, Repr

/-- The sub-language of expressions whose lowering reads or writes
`current_vars`: integer literals (`generateIntegerLiteral`, standing in for
the value-producing leaves), identifiers (`generateIdentifier`), assignments
(`generateAssign`), lets (`generateLet`) and blocks (`generateBlock`).  The
other expression kinds only recurse into their children without touching the
variable map, so this fragment is closed for the scoping claim. -/
inductive EmExpr where
  | intLit (value : Int)
  | identifier (name : String)
  | assign (name : String) (e : EmExpr)
  | letE (name ty : String) (init_expr : Option EmExpr) (scope_expr : EmExpr)
  | block (expressions : List EmExpr)

mutual

/-- The variable-map behaviour of `CodeGenerator::generateExpression` on the
scoping fragment, embedded from `generateIntegerLiteral`,
`generateIdentifier` (lines 1178-1214), `generateAssign` (lines 1383-1430),
`generateLet` (lines 1433-1477) and `generateBlock` (lines 1353-1380).
`none` renders a null `llvm::Value*`.  As with `tcExpr`, a fuel argument
(first, decreasing at every recursive call) makes the structural recursion
kernel-reducible; any fuel at least the expression's size gives the
emitter's value. -/
def genExpr (ctx : GenCtx) : Nat → GenState → EmExpr → Option GVal × GenState
  | 0, st, _ => (none, st)
  | _ + 1, st, .intLit n => (some (GVal.constInt n), st)
  | _ + 1, st, .identifier name =>
      match lookupMap st.current_vars name with
      | some v => (some v, st)
      | none =>
          if ¬ ctx.current_class = "" then
            match findFieldType ctx.defs (ctx.defs.length + 1) ctx.current_class name with
            | some _ => (some (GVal.fieldLoad name), st)
            | none =>
                (none, ⟨st.current_vars,
                  reportErrorCG ctx.source_file st.errors ("Undefined identifier: " ++ name)⟩)
          else
            (none, ⟨st.current_vars,
              reportErrorCG ctx.source_file st.errors ("Undefined identifier: " ++ name)⟩)
  | fuel + 1, st, .assign name e =>
      let (value, st) := genExpr ctx fuel st e
      match value with
      | none => (none, st)
      | some v =>
          match lookupMap st.current_vars name with
          | some _ => (some v, ⟨setMap st.current_vars name v, st.errors⟩)
          | none =>
              if ¬ ctx.current_class = "" then
                match findFieldType ctx.defs (ctx.defs.length + 1) ctx.current_class name with
                | some _ => (some v, st)
                | none =>
                    (none, ⟨st.current_vars,
                      reportErrorCG ctx.source_file st.errors
                        ("Undefined variable or field for assignment: " ++ name)⟩)
              else
                (none, ⟨st.current_vars,
                  reportErrorCG ctx.source_file st.errors
                    ("Undefined variable or field for assignment: " ++ name)⟩)
  | fuel + 1, st, .letE name ty init_expr scope_expr =>
      let (init_val, st) :=
        match init_expr with
        | some ie =>
            let (v, st) := genExpr ctx fuel st ie
            (v, st)
        | none =>
            (some (if ty = "int32" then GVal.constInt 0
              else if ty = "bool" then GVal.constBool false
              else if ty = "string" then GVal.strConst ""
              else GVal.nullPtr ty), st)
      match init_val with
      | none => (none, st)
      | some v =>
          let st : GenState := ⟨setMap st.current_vars name v, st.errors⟩
          let (scope_val, st) := genExpr ctx fuel st scope_expr
          (scope_val, ⟨eraseMap st.current_vars name, st.errors⟩)
  | _ + 1, st, .block [] => (none, st)
  | fuel + 1, st, .block (e :: rest) => genBlockList ctx fuel st (e :: rest)

/-- The loop of `generateBlock`: a null value from any expression but the last
reports `Failed to generate code for block expression` and aborts; the block's
value is the last expression's. -/
def genBlockList (ctx : GenCtx) : Nat → GenState → List EmExpr → Option GVal × GenState
  | 0, st, _ => (none, st)
  | _ + 1, st, [] => (none, st)
  | fuel + 1, st, [e] => genExpr ctx fuel st e
  | fuel + 1, st, e :: e₂ :: rest =>
      let (r, st) := genExpr ctx fuel st e
      match r with
      | none =>
          (none, ⟨st.current_vars,
            reportErrorCG ctx.source_file st.errors
              "Failed to generate code for block expression"⟩)
      | some _ => genBlockList ctx fuel st (e₂ :: rest)

end

end VSOP

namespace VSOP

/-- Conformance from a non-error primitive-kind type holds exactly for a
target of the same name, the `Error` name or the name `Object` (the chain
walk is unreachable in this case). -/
theorem conformsTo_primitive_iff (defs : Defs) (P T : Ty)
    (hk : P.kind = Kind.PRIMITIVE) (he : P.name ≠ "__error__") :
    P.conformsTo T defs = true ↔
      (T.name = P.name ∨ T.name = "__error__" ∨ T.name = "Object") := by
  unfold Ty.conformsTo
  by_cases h1 : P.name = T.name
  · simp [h1]
  · simp only [if_neg h1]
    by_cases h2 : P.isError = true ∨ T.isError = true
    · have hPe : P.isError = false := by
        simp [Ty.isError, he]
      have hTe : T.isError = true := by
        rcases h2 with h2 | h2
        · rw [hPe] at h2; cases h2
        · exact h2
      have hTn : T.name = "__error__" := by
        simpa [Ty.isError, decide_eq_true_eq] using hTe
      simp [hPe, hTe, hTn]
    · have hTe : T.isError = false := by
        rcases Bool.eq_false_or_eq_true T.isError with h | h
        · exact absurd (Or.inr h) h2
        · exact h
      have hPe : P.isError = false := by
        simp [Ty.isError, he]
      have hTn : ¬ T.name = "__error__" := by
        intro hc
        rw [Ty.isError, hc] at hTe
        simp at hTe
      simp only [hPe, hTe, Bool.or_self, Bool.false_eq_true, if_false]
      rw [if_pos (Or.inl hk)]
      constructor
      · intro h
        right; right
        simpa [decide_eq_true_eq] using h
      · intro h
        rcases h with h | h | h
        · exact absurd h.symm h1
        · exact absurd h hTn
        · simp [h]

/-- Claim C1, counterexample.  The claim says a primitive conforms to no type
other than itself, `Object` included; but `Type::conformsTo` answers `true` for
`int32 <: Object` (the code even comments `Primitives conform to Object`), so
the claim as stated is false. -/
theorem C1_counterexample : Ty.Int32.conformsTo Ty.ObjectT [] = true := by
  decide

/-- Claim C1, amended: a primitive type `P` conforms exactly to itself, to the
`Error` type, and to the root class `Object`; conformance from `P` to every
other type fails.  Stated for any class table and any target type. -/
theorem C1_primitive_conformance (defs : Defs) (P T : Ty)
    (hk : P.kind = Kind.PRIMITIVE) (he : P.name ≠ "__error__") :
    P.conformsTo T defs = true ↔
      (T.name = P.name ∨ T.name = "__error__" ∨ T.name = "Object") :=
  conformsTo_primitive_iff defs P T hk he

/-- Claim C1 witness: the amended statement instantiated at `P = bool`,
`T = Object` on the empty class table. -/
theorem C1_primitive_conformance_witness :
    Ty.Boolean.conformsTo Ty.ObjectT [] = true :=
  (C1_primitive_conformance [] Ty.Boolean Ty.ObjectT rfl (by decide)).mpr
    (Or.inr (Or.inr rfl))

end VSOP

namespace VSOP

/-- Class table for the layout counterexample: `P` declares fields `f` and
`g`; `D extends P` redeclares nothing. -/
def c2Defs : Defs :=
  [("Object", objectClassDef),
   ("P", ⟨"P", "Object", [("f", Ty.Int32), ("g", Ty.Int32)], []⟩),
   ("D", ⟨"D", "P", [], []⟩)]

/-- Claim C2.  The generated layouts contradict the claimed invariant: `P`'s
struct is `(parent pointer, f, g)` — slot 0 is a pointer to the parent
struct, not the dispatch-table pointer (only `Object` has the vtable pointer
at slot 0); `D`'s struct is just `(parent pointer)`, so the inherited fields
`f` and `g` have no slot in `D` at all, let alone the same index; and the
emitter reads and writes every field through the hardcoded struct index 1,
so `g` (slot 2 in `P`) is accessed at index 1. -/
theorem C2_layout_evaluation :
    classLayout c2Defs "P" =
      [Slot.parentPtr "Object", Slot.fieldSlot "f" "int32", Slot.fieldSlot "g" "int32"] ∧
    classLayout c2Defs "D" = [Slot.parentPtr "P"] ∧
    (¬ Slot.fieldSlot "f" "int32" ∈ classLayout c2Defs "D") ∧
    (classLayout c2Defs "P").get? 2 = some (Slot.fieldSlot "g" "int32") ∧
    fieldAccessIndex "g" = 1 ∧
    (classLayout c2Defs "D").head? = some (Slot.parentPtr "P") := by
  decide

/-- Class table for the vtable-order counterexample, listed in the iteration
order `B` before `A` (`B extends A`, `A` declares method `m`). -/
def c3DefsBad : Defs :=
  [("B", ⟨"B", "A", [], []⟩),
   ("A", ⟨"A", "Object", [], [("m", ⟨"m", [], Ty.Int32⟩)]⟩)]

/-- Claim C3, counterexample.  When the `unordered_map` iteration happens to
process `B` before its parent `A`, `B` ends with no dispatch table at all —
the builder reports `Parent class not found in vtable creation` — so the
claimed order-independence fails. -/
theorem C3_counterexample :
    lookupMap (generateClassVTables "test.vsop" c3DefsBad).tables "B" = none ∧
    (generateClassVTables "test.vsop" c3DefsBad).errors =
      ["test.vsop: code generation error: Parent class not found in vtable creation: A"] := by
  decide

/-- The class table of a minimal well-formed program (`Object` and a `Main`
class), used by the expression-level examples. -/
def mainDefs : Defs :=
  [("Object", objectClassDef),
   ("Main", ⟨"Main", "Object", [], [("main", ⟨"main", [], Ty.Int32⟩)]⟩)]

/-- The type-checker context inside `Main` for the expression-level examples. -/
def mainTCCtx : TCCtx := ⟨"test.vsop", mainDefs, "Main"⟩

/-- The state on entry to an expression of `Main.main`: one scope holding
`self`, no errors. -/
def mainTCState : TCState := ⟨[[("self", "Main")]], []⟩

/-- The expression `if true then 1 else false`. -/
def c4Expr : Expr :=
  .IfE (.BooleanLit true) (.IntegerLit 1) (some (.BooleanLit false))

/-- Claim C4, counterexample.  Type-checking `if true then 1 else false`
reports no error at all: `findCommonAncestor` deliberately joins two distinct
primitives at `Object` (its `Handle primitives` branch) instead of rejecting
them. -/
theorem C4_counterexample :
    (tcExpr mainTCCtx 10 mainTCState c4Expr).2.errors = [] := by
  decide

/-- Claim C4, amended: type-checking `if true then 1 else false` succeeds
with no reported error, and the if-expression is typed `Object`, the join the
code computes for the primitives `int32` and `bool`. -/
theorem C4_if_joins_primitives_at_Object :
    tcExpr mainTCCtx 10 mainTCState c4Expr = ("Object", mainTCState) := by
  decide

/-- Class table for the emitter-scoping failure: class `A` (no fields) with a
method whose body shadows a formal parameter. -/
def c9Defs : Defs :=
  [("Object", objectClassDef),
   ("A", ⟨"A", "Object", [], [("m", ⟨"m", [⟨"x", Ty.Int32⟩], Ty.Int32⟩)]⟩)]

/-- The emitter context inside a method of `A`. -/
def c9Ctx : GenCtx := ⟨"test.vsop", c9Defs, "A"⟩

/-- The emitter state after `generateMethodBodies` installed the formal
parameter `x` into `current_vars`. -/
def c9StartState : GenState := ⟨[("x", GVal.argRef "x")], []⟩

/-- The method body `{ let x : int32 <- 1 in 0; x }`: the `let` shadows the
parameter `x`, and `x` is read again after the `let` ends. -/
def c9Body : EmExpr :=
  .block [.letE "x" "int32" (some (.intLit 1)) (.intLit 0), .identifier "x"]

/-- Claim C9.  `generateLet` installs the bound variable with
`current_vars[name] = value` and removes it with `current_vars.erase(name)`,
so a shadowed outer binding is destroyed instead of restored: after the inner
`let x` ends, the parameter `x` is gone from the variable map and the
trailing read of `x` fails with `Undefined identifier: x`, although the same
program type-checks (the type checker's scope stack does restore the outer
binding). -/
theorem C9_let_erases_shadowed_binding :
    (genExpr c9Ctx 10 c9StartState c9Body).1 = none ∧
    (genExpr c9Ctx 10 c9StartState c9Body).2.current_vars = [] ∧
    (genExpr c9Ctx 10 c9StartState c9Body).2.errors =
      ["test.vsop: code generation error: Undefined identifier: x"] := by
  decide

end VSOP

namespace VSOP

/-- Claim C8.  For an equality `a = b` whose operands typed to `lt` and `rt`
without error: the expression's type is always `bool`; `unit` with `unit` is
accepted; `unit` with anything else is an error; equal types are accepted;
a primitive against a class type is an error; two distinct primitives are an
error; two distinct class types are accepted. -/
theorem C8_equality_typing (ctx : TCCtx) (fuel : Nat) (st st₁ st₂ : TCState)
    (l r : Expr) (lt rt : String)
    (hl : tcExpr ctx fuel st l = (lt, st₁))
    (hr : tcExpr ctx fuel st₁ r = (rt, st₂))
    (hle : ¬ lt = "__error__") (hre : ¬ rt = "__error__") :
    (tcExpr ctx (fuel + 1) st (.BinaryOpE "=" l r)).1 = "bool" ∧
    (lt = "unit" → rt = "unit" →
      tcExpr ctx (fuel + 1) st (.BinaryOpE "=" l r) = ("bool", st₂)) ∧
    ((lt = "unit" ∨ rt = "unit") → ¬ (lt = "unit" ∧ rt = "unit") →
      tcExpr ctx (fuel + 1) st (.BinaryOpE "=" l r) =
        ("bool", reportErrorTC ctx st₂
          "Type unit can only be compared for equality with unit")) ∧
    (¬ lt = "unit" → ¬ rt = "unit" → lt = rt →
      tcExpr ctx (fuel + 1) st (.BinaryOpE "=" l r) = ("bool", st₂)) ∧
    (¬ lt = "unit" → ¬ rt = "unit" → ¬ lt = rt → ¬ eqPrimName lt = eqPrimName rt →
      tcExpr ctx (fuel + 1) st (.BinaryOpE "=" l r) =
        ("bool", reportErrorTC ctx st₂ ("Cannot compare primitive type " ++
          (if eqPrimName lt then lt else rt) ++ " with class type " ++
          (if eqPrimName lt then rt else lt)))) ∧
    (¬ lt = "unit" → ¬ rt = "unit" → ¬ lt = rt →
      eqPrimName lt = true → eqPrimName rt = true →
      tcExpr ctx (fuel + 1) st (.BinaryOpE "=" l r) =
        ("bool", reportErrorTC ctx st₂ ("Cannot compare distinct primitive types " ++
          lt ++ " and " ++ rt))) ∧
    (¬ lt = "unit" → ¬ rt = "unit" → ¬ lt = rt →
      eqPrimName lt = false → eqPrimName rt = false →
      tcExpr ctx (fuel + 1) st (.BinaryOpE "=" l r) = ("bool", st₂)) := by
  have hmain : tcExpr ctx (fuel + 1) st (.BinaryOpE "=" l r) =
      tcEquality ctx st₂ lt rt := by
    simp only [tcExpr, hl, hr, hle, hre, or_self, if_false, reduceIte]
    simp [hle, hre]
  rw [hmain]
  unfold tcEquality
  refine ⟨?_, ?_, ?_, ?_, ?_, ?_, ?_⟩
  · split_ifs <;> rfl
  · intro h1 h2; simp [h1, h2]
  · intro h1 h2
    rcases h1 with h1 | h1 <;> simp [h1] <;> intro hx <;>
      [exact absurd ⟨h1, hx⟩ h2; exact absurd ⟨hx, h1⟩ h2]
  · intro h1 h2 h3; simp [h1, h2, h3]
  · intro h1 h2 h3 h4
    simp [h1, h2, h3, h4]
  · intro h1 h2 h3 h4 h5
    simp [h1, h2, h3, h4, h5]
  · intro h1 h2 h3 h4 h5
    simp [h1, h2, h3, h4, h5]

/-- Claim C8 witness: `1 = true` (types `int32` and `bool`) is typed `bool`
with the distinct-primitives error reported. -/
theorem C8_equality_typing_witness :
    tcExpr mainTCCtx 2 mainTCState (.BinaryOpE "=" (.IntegerLit 1) (.BooleanLit true)) =
      ("bool", reportErrorTC mainTCCtx mainTCState
        "Cannot compare distinct primitive types int32 and bool") :=
  ((C8_equality_typing mainTCCtx 1 mainTCState mainTCState mainTCState
      (.IntegerLit 1) (.BooleanLit true) "int32" "bool" rfl rfl
      (by decide) (by decide)).2.2.2.2.2.1)
    (by decide) (by decide) (by decide) (by decide) (by decide)

/-- Claim C10.  A method call whose receiver's static type is a primitive
(`int32`, `bool`, `string` or `unit`) is rejected with `Cannot call method
... on primitive type ...` and typed `__error__`; the right-hand sides
mention neither the arguments nor any method table, so no method lookup and
no argument checking is attempted.  The first part is the explicit-receiver
case, the second the implicit-`self` case. -/
theorem C10_call_on_primitive_receiver (ctx : TCCtx) (fuel : Nat)
    (st st' : TCState) (recv : Expr) (p m : String) (args : List Expr)
    (hr : tcExpr ctx fuel st recv = (p, st'))
    (hp : p = "int32" ∨ p = "bool" ∨ p = "string" ∨ p = "unit") :
    tcExpr ctx (fuel + 1) st (.CallE (some recv) m args) =
      ("__error__", reportErrorTC ctx st'
        ("Cannot call method \x27" ++ m ++ "\x27 on primitive type " ++ p)) ∧
    (lookupSymbol ctx st "self" = p →
      tcExpr ctx (fuel + 1) st (.CallE none m args) =
        ("__error__", reportErrorTC ctx st
          ("Cannot call method \x27" ++ m ++ "\x27 on primitive type " ++ p))) := by
  have hpe : ¬ p = "__error__" := by
    rcases hp with h | h | h | h <;> simp [h]
  constructor
  · simp only [tcExpr, hr]
    simp [hpe, hp]
  · intro hs
    simp only [tcExpr, hs]
    simp [hpe, hp]

/-- Claim C10 witness: calling `foo` on the literal `1` reports the
primitive-receiver error and types the call `__error__`. -/
theorem C10_call_on_primitive_receiver_witness :
    tcExpr mainTCCtx 2 mainTCState (.CallE (some (.IntegerLit 1)) "foo" []) =
      ("__error__", reportErrorTC mainTCCtx mainTCState
        "Cannot call method \x27foo\x27 on primitive type int32") :=
  (C10_call_on_primitive_receiver mainTCCtx 1 mainTCState mainTCState
      (.IntegerLit 1) "int32" "foo" [] rfl (Or.inl rfl)).1

end VSOP

namespace VSOP

/-- One step of the parent-chain walk every hierarchy loop of the analyzer
performs: stop (`none`) at `Object`, at the empty name or at a missing table
entry, else move to the parent. -/
def chainStep (defs : Defs) (n : String) : Option String :=
  if n = "Object" ∨ n = "" then none
  else
    match lookupMap defs n with
    | none => none
    | some d => some d.parent

/-- The parent-chain walk from a name: `walkSeq defs name k` is the name
reached after `k` steps (`none` once the walk has stopped). -/
def walkSeq (defs : Defs) (name : String) : Nat → Option String
  | 0 => some name
  | k + 1 =>
      match walkSeq defs name k with
      | none => none
      | some c => chainStep defs c

/-- The claim's notion of an inheritance cycle: the parent-chain walk from
`name` visits some name twice. -/
def chainRevisits (defs : Defs) (name : String) : Prop :=
  ∃ i j, i < j ∧ (walkSeq defs name i).isSome ∧
    walkSeq defs name i = walkSeq defs name j

/-- The ancestor chain of a name as a list ending at `Object`, when the
parent chain reaches `Object` within the fuel: `[n, parent n, …, "Object"]`. -/
def chainToObject (defs : Defs) : Nat → String → Option (List String)
  | 0, _ => none
  | fuel + 1, n =>
      if n = "Object" then some ["Object"]
      else
        match lookupMap defs n with
        | none => none
        | some d => (chainToObject defs fuel d.parent).map (fun l => n :: l)

/-- Larger fuel returns the same chain. -/
theorem chainToObject_mono (defs : Defs) :
    ∀ (f f₂ : Nat) (n : String) (l : List String), f ≤ f₂ →
      chainToObject defs f n = some l → chainToObject defs f₂ n = some l := by
  intro f
  induction f with
  | zero => intro f₂ n l _ h; simp [chainToObject] at h
  | succ f ih =>
      intro f₂ n l hle h
      obtain ⟨f₃, rfl⟩ : ∃ f₃, f₂ = f₃ + 1 := ⟨f₂ - 1, by omega⟩
      rw [chainToObject] at h ⊢
      by_cases hn : n = "Object"
      · simpa [hn] using h
      · simp only [hn, if_false] at h ⊢
        cases hlk : lookupMap defs n with
        | none => rw [hlk] at h; cases h
        | some d =>
            rw [hlk] at h
            simp only [Option.map_eq_some'] at h
            obtain ⟨l₂, hl₂, rfl⟩ := h
            simp only [Option.map_eq_some']
            exact ⟨l₂, ih f₃ d.parent l₂ (by omega) hl₂, rfl⟩

/-- Two successful chain computations agree. -/
theorem chainToObject_unique (defs : Defs) (f f₂ : Nat) (n : String)
    (l l₂ : List String) (h : chainToObject defs f n = some l)
    (h₂ : chainToObject defs f₂ n = some l₂) : l = l₂ := by
  rcases Nat.le_total f f₂ with hle | hle
  · have := chainToObject_mono defs f f₂ n l hle h
    rw [this] at h₂; exact Option.some.inj h₂
  · have := chainToObject_mono defs f₂ f n l₂ hle h₂
    rw [h] at this
    exact Option.some.inj this

/-- A chain starts at its name. -/
theorem chainToObject_head (defs : Defs) (f : Nat) (n : String) (l : List String)
    (h : chainToObject defs f n = some l) : l.head? = some n := by
  cases f with
  | zero => simp [chainToObject] at h
  | succ f =>
      rw [chainToObject] at h
      by_cases hn : n = "Object"
      · simp [hn] at h; simp [← h, hn]
      · simp only [hn, if_false] at h
        cases hlk : lookupMap defs n with
        | none => rw [hlk] at h; cases h
        | some d =>
            rw [hlk] at h
            simp only [Option.map_eq_some'] at h
            obtain ⟨l₂, _, rfl⟩ := h
            rfl

/-- A chain ends at `Object`. -/
theorem chainToObject_last (defs : Defs) :
    ∀ (f : Nat) (n : String) (l : List String),
      chainToObject defs f n = some l → l ≠ [] ∧ l.getLast? = some "Object" := by
  intro f
  induction f with
  | zero => intro n l h; simp [chainToObject] at h
  | succ f ih =>
      intro n l h
      rw [chainToObject] at h
      by_cases hn : n = "Object"
      · simp [hn] at h; simp [← h]
      · simp only [hn, if_false] at h
        cases hlk : lookupMap defs n with
        | none => rw [hlk] at h; cases h
        | some d =>
            rw [hlk] at h
            simp only [Option.map_eq_some'] at h
            obtain ⟨l₂, hl₂, rfl⟩ := h
            obtain ⟨hne, hlast⟩ := ih d.parent l₂ hl₂
            refine ⟨by simp, ?_⟩
            cases l₂ with
            | nil => exact absurd rfl hne
            | cons b t => rw [List.getLast?_cons_cons]; exact hlast

/-- Every member of a chain has its own chain, a suffix of the original
starting at that member. -/
theorem chainToObject_mem_suffix (defs : Defs) :
    ∀ (f : Nat) (n : String) (l : List String) (m : String),
      chainToObject defs f n = some l → m ∈ l →
      ∃ l₂, chainToObject defs f m = some l₂ ∧ l₂ <:+ l ∧ l₂.head? = some m := by
  intro f
  induction f with
  | zero => intro n l m h; simp [chainToObject] at h
  | succ f ih =>
      intro n l m h hm
      have hh := h
      rw [chainToObject] at h
      by_cases hn : n = "Object"
      · simp only [hn, if_true, reduceIte] at h
        have hl : l = ["Object"] := (Option.some.inj h).symm
        subst hl
        simp only [List.mem_singleton] at hm
        subst hm
        refine ⟨["Object"], ?_, List.suffix_refl _, rfl⟩
        rw [chainToObject]
        simp
      · simp only [hn, if_false] at h
        cases hlk : lookupMap defs n with
        | none => rw [hlk] at h; cases h
        | some d =>
            rw [hlk] at h
            simp only [Option.map_eq_some'] at h
            obtain ⟨l₂, hl₂, rfl⟩ := h
            rcases List.mem_cons.mp hm with rfl | hm₂
            · exact ⟨m :: l₂, hh, List.suffix_refl _, rfl⟩
            · obtain ⟨l₃, hc, hsuf, hhead⟩ := ih d.parent l₂ m hl₂ hm₂
              exact ⟨l₃, chainToObject_mono defs f (f + 1) m l₃ (by omega) hc,
                hsuf.trans (List.suffix_cons _ _), hhead⟩

/-- A chain has no repeated name. -/
theorem chainToObject_nodup (defs : Defs) :
    ∀ (f : Nat) (n : String) (l : List String),
      chainToObject defs f n = some l → l.Nodup := by
  intro f
  induction f with
  | zero => intro n l h; simp [chainToObject] at h
  | succ f ih =>
      intro n l h
      rw [chainToObject] at h
      by_cases hn : n = "Object"
      · simp [hn] at h; simp [← h]
      · simp only [hn, if_false] at h
        cases hlk : lookupMap defs n with
        | none => rw [hlk] at h; cases h
        | some d =>
            rw [hlk] at h
            simp only [Option.map_eq_some'] at h
            obtain ⟨l₂, hl₂, rfl⟩ := h
            refine List.nodup_cons.mpr ⟨?_, ih d.parent l₂ hl₂⟩
            intro hmem
            obtain ⟨l₃, hc, hsuf, hhead⟩ :=
              chainToObject_mem_suffix defs f d.parent l₂ n hl₂ hmem
            have hcn : chainToObject defs (f + 1) n = some (n :: l₂) := by
              rw [chainToObject]
              simp [hn, hlk, hl₂]
            have hcn₂ : chainToObject defs (f + 1) n = some l₃ :=
              chainToObject_mono defs f (f + 1) n l₃ (by omega) hc
            have : n :: l₂ = l₃ := by
              rw [hcn] at hcn₂; exact Option.some.inj hcn₂
            subst this
            have := List.IsSuffix.length_le hsuf
            simp at this

/-- A successful lookup means the key occurs in the map. -/
theorem lookupMap_mem_keys {α : Type} (m : List (String × α)) (k : String) (v : α)
    (h : lookupMap m k = some v) : k ∈ m.map Prod.fst := by
  induction m with
  | nil => simp [lookupMap] at h
  | cons e rest ih =>
      rw [lookupMap] at h
      by_cases he : e.1 = k
      · simp [he]
      · simp only [he, if_false] at h
        simp [ih h]

/-- Every chain element but the last has a class-table entry. -/
theorem chainToObject_dropLast_keys (defs : Defs) :
    ∀ (f : Nat) (n : String) (l : List String),
      chainToObject defs f n = some l →
      ∀ m ∈ l.dropLast, ∃ d, lookupMap defs m = some d := by
  intro f
  induction f with
  | zero => intro n l h; simp [chainToObject] at h
  | succ f ih =>
      intro n l h
      rw [chainToObject] at h
      by_cases hn : n = "Object"
      · simp only [hn, if_true, reduceIte] at h
        have : l = ["Object"] := (Option.some.inj h).symm
        subst this
        intro m hm; simp at hm
      · simp only [hn, if_false] at h
        cases hlk : lookupMap defs n with
        | none => rw [hlk] at h; cases h
        | some d =>
            rw [hlk] at h
            simp only [Option.map_eq_some'] at h
            obtain ⟨l₂, hl₂, rfl⟩ := h
            have hne : l₂ ≠ [] := (chainToObject_last defs f d.parent l₂ hl₂).1
            intro m hm
            rw [List.dropLast_cons_of_ne_nil hne] at hm
            rcases List.mem_cons.mp hm with rfl | hm₂
            · exact ⟨d, hlk⟩
            · exact ih d.parent l₂ hl₂ m hm₂

/-- A chain is at most one longer than the class table. -/
theorem chainToObject_length_le (defs : Defs) (f : Nat) (n : String)
    (l : List String) (h : chainToObject defs f n = some l) :
    l.length ≤ defs.length + 1 := by
  have hnd : l.Nodup := chainToObject_nodup defs f n l h
  have hsub : l.dropLast ⊆ defs.map Prod.fst := by
    intro m hm
    obtain ⟨d, hd⟩ := chainToObject_dropLast_keys defs f n l h m hm
    exact lookupMap_mem_keys defs m d hd
  have hndd : l.dropLast.Nodup := hnd.sublist (List.dropLast_sublist l)
  have hc1 : l.dropLast.toFinset.card = l.dropLast.length :=
    List.toFinset_card_of_nodup hndd
  have hc2 : l.dropLast.toFinset ⊆ (defs.map Prod.fst).toFinset := by
    intro m hm
    rw [List.mem_toFinset] at hm ⊢
    exact hsub hm
  have hc3 : l.dropLast.length ≤ defs.length := by
    calc l.dropLast.length = l.dropLast.toFinset.card := hc1.symm
      _ ≤ (defs.map Prod.fst).toFinset.card := Finset.card_le_card hc2
      _ ≤ (defs.map Prod.fst).length := List.toFinset_card_le _
      _ = defs.length := List.length_map _ _
  have : l.length = l.dropLast.length + 1 := by
    have hne : l ≠ [] := (chainToObject_last defs f n l h).1
    have hpos : 0 < l.length := List.length_pos.mpr hne
    rw [List.length_dropLast]
    omega
  omega

/-- With fuel at least the chain's length, the `conformsTo` walk from `n`
decides exactly membership of the target in the chain's tail (the proper
ancestors up to and including `Object`), for a target other than `Object`. -/
theorem conformsWalk_chain (defs : Defs) :
    ∀ (f : Nat) (n target : String) (l : List String) (fuel : Nat),
      chainToObject defs f n = some l → ¬ "" ∈ l → ¬ target = "Object" →
      l.length ≤ fuel →
      conformsWalk defs fuel n target = (target ∈ l.tail : Bool) := by
  intro f
  induction f with
  | zero => intro n target l fuel h; simp [chainToObject] at h
  | succ f ih =>
      intro n target l fuel h hnb ht hfuel
      rw [chainToObject] at h
      by_cases hn : n = "Object"
      · simp only [hn, if_true, reduceIte] at h
        have : l = ["Object"] := (Option.some.inj h).symm
        subst this
        obtain ⟨fuel₂, rfl⟩ : ∃ fuel₂, fuel = fuel₂ + 1 := ⟨fuel - 1, by simp at hfuel; omega⟩
        rw [conformsWalk]
        simp [hn]
      · simp only [hn, if_false] at h
        cases hlk : lookupMap defs n with
        | none => rw [hlk] at h; cases h
        | some d =>
            rw [hlk] at h
            simp only [Option.map_eq_some'] at h
            obtain ⟨l₂, hl₂, rfl⟩ := h
            have hne₂ : l₂ ≠ [] := (chainToObject_last defs f d.parent l₂ hl₂).1
            have hhead₂ : l₂.head? = some d.parent := chainToObject_head defs f d.parent l₂ hl₂
            obtain ⟨fuel₂, rfl⟩ : ∃ fuel₂, fuel = fuel₂ + 1 := ⟨fuel - 1, by simp at hfuel; omega⟩
            have hnn : ¬ n = "" := by
              intro hc; exact hnb (by simp [hc])
            rw [conformsWalk]
            simp only [hn, hnn, or_self, if_false, hlk]
            obtain ⟨b, t, rfl⟩ : ∃ b t, l₂ = b :: t := by
              cases l₂ with
              | nil => exact absurd rfl hne₂
              | cons b t => exact ⟨b, t, rfl⟩
            have hb : b = d.parent := by simpa using hhead₂
            subst hb
            by_cases hp : d.parent = target
            · simp [hp, List.tail]
            · simp only [hp, if_false, List.tail_cons]
              have hnb₂ : ¬ "" ∈ d.parent :: t := by
                intro hc; exact hnb (List.mem_cons_of_mem n hc)
              have := ih d.parent target (d.parent :: t) fuel₂ hl₂ hnb₂ ht
                (by simp at hfuel ⊢; omega)
              rw [this]
              simp only [List.tail_cons, List.mem_cons]
              have : ¬ target = d.parent := fun hc => hp hc.symm
              simp [this]

/-- With fuel at least the chain's length, the ancestor-collecting loop of
`findCommonAncestor` returns the chain's names (prepended to the
accumulator). -/
theorem ancestorsLoop_chain (defs : Defs) :
    ∀ (f : Nat) (n : String) (l acc : List String) (fuel : Nat),
      chainToObject defs f n = some l → ¬ "" ∈ l → l.length ≤ fuel →
      ancestorsLoop defs fuel n acc = some (l.reverse ++ acc) := by
  intro f
  induction f with
  | zero => intro n l acc fuel h; simp [chainToObject] at h
  | succ f ih =>
      intro n l acc fuel h hnb hfuel
      rw [chainToObject] at h
      by_cases hn : n = "Object"
      · simp only [hn, if_true, reduceIte] at h
        have : l = ["Object"] := (Option.some.inj h).symm
        subst this
        obtain ⟨fuel₂, rfl⟩ : ∃ fuel₂, fuel = fuel₂ + 1 := ⟨fuel - 1, by simp at hfuel; omega⟩
        rw [ancestorsLoop]
        simp [hn]
      · simp only [hn, if_false] at h
        cases hlk : lookupMap defs n with
        | none => rw [hlk] at h; cases h
        | some d =>
            rw [hlk] at h
            simp only [Option.map_eq_some'] at h
            obtain ⟨l₂, hl₂, rfl⟩ := h
            obtain ⟨fuel₂, rfl⟩ : ∃ fuel₂, fuel = fuel₂ + 1 := ⟨fuel - 1, by simp at hfuel; omega⟩
            have hnn : ¬ n = "" := by
              intro hc; exact hnb (by simp [hc])
            rw [ancestorsLoop]
            simp only [hnn, if_false, hn, reduceIte, hlk]
            have hnb₂ : ¬ "" ∈ l₂ := fun hc => hnb (List.mem_cons_of_mem n hc)
            have := ih d.parent l₂ (n :: acc) fuel₂ hl₂ hnb₂ (by simp at hfuel ⊢; omega)
            rw [this]
            simp

/-- With fuel at least the chain's length, the second loop of
`findCommonAncestor` returns (as a class type) the first chain element that
is in the collected ancestor set. -/
theorem commonWalk_chain (defs : Defs) :
    ∀ (f : Nat) (n : String) (l anc1 : List String) (x : String) (fuel : Nat),
      chainToObject defs f n = some l → ¬ "" ∈ l → l.length ≤ fuel →
      l.find? (fun m => decide (m ∈ anc1)) = some x →
      commonWalk defs anc1 fuel n = ⟨x, Kind.CLASS⟩ := by
  intro f
  induction f with
  | zero => intro n l anc1 x fuel h; simp [chainToObject] at h
  | succ f ih =>
      intro n l anc1 x fuel h hnb hfuel hfind
      rw [chainToObject] at h
      by_cases hn : n = "Object"
      · simp only [hn, if_true, reduceIte] at h
        have : l = ["Object"] := (Option.some.inj h).symm
        subst this
        obtain ⟨fuel₂, rfl⟩ : ∃ fuel₂, fuel = fuel₂ + 1 := ⟨fuel - 1, by simp at hfuel; omega⟩
        rw [List.find?] at hfind
        by_cases hmem : "Object" ∈ anc1
        · simp only [hmem, decide_True] at hfind
          have hx : x = "Object" := by
            have := hfind
            simpa using this.symm
          subst hx
          rw [commonWalk]
          simp [hn, hmem]
        · simp [hmem] at hfind
      · simp only [hn, if_false] at h
        cases hlk : lookupMap defs n with
        | none => rw [hlk] at h; cases h
        | some d =>
            rw [hlk] at h
            simp only [Option.map_eq_some'] at h
            obtain ⟨l₂, hl₂, rfl⟩ := h
            obtain ⟨fuel₂, rfl⟩ : ∃ fuel₂, fuel = fuel₂ + 1 := ⟨fuel - 1, by simp at hfuel; omega⟩
            have hnn : ¬ n = "" := by
              intro hc; exact hnb (by simp [hc])
            rw [List.find?] at hfind
            rw [commonWalk]
            simp only [hnn, if_false]
            by_cases hmem : n ∈ anc1
            · simp only [hmem, decide_True] at hfind
              have hx : x = n := by
                have := hfind
                simpa using this.symm
              subst hx
              simp [hmem]
            · simp only [hmem, decide_False] at hfind
              simp only [hmem, if_false, hn, reduceIte, hlk]
              have hnb₂ : ¬ "" ∈ l₂ := fun hc => hnb (List.mem_cons_of_mem n hc)
              exact ih d.parent l₂ anc1 x fuel₂ hl₂ hnb₂ (by simp at hfuel ⊢; omega) hfind

/-- Of two suffixes of the same list, the shorter is a suffix of the longer. -/
theorem suffix_total {α : Type} (s t l : List α) (hs : s <:+ l) (ht : t <:+ l)
    (hlen : s.length ≤ t.length) : s <:+ t := by
  obtain ⟨u, hu⟩ := hs
  obtain ⟨v, hv⟩ := ht
  have hul : u.length + s.length = l.length := by rw [← hu]; simp
  have hvl : v.length + t.length = l.length := by rw [← hv]; simp
  have hsl : l.drop u.length = s := by rw [← hu]; exact List.drop_left u s
  have htl : l.drop v.length = t := by rw [← hv]; exact List.drop_left v t
  have hdt : t.drop (t.length - s.length) = s := by
    rw [← htl, List.drop_drop, ← hsl]
    congr 1
    simp only [List.length_drop]
    omega
  rw [← hdt]
  exact List.drop_suffix _ _

/-- A suffix of a cons is the whole cons or a suffix of the tail. -/
theorem suffix_cons_elim {α : Type} (s : List α) (m : α) (t : List α)
    (h : s <:+ (m :: t)) : s = m :: t ∨ s <:+ t := by
  obtain ⟨u, hu⟩ := h
  cases u with
  | nil => left; simpa using hu
  | cons a u₂ =>
      right
      refine ⟨u₂, ?_⟩
      simpa using congrArg List.tail hu

/-- In a duplicate-free list, a suffix is determined by its head. -/
theorem nodup_suffix_head_unique {α : Type} (l s₁ s₂ : List α) (m : α)
    (hnd : l.Nodup) (h₁ : s₁ <:+ l) (h₂ : s₂ <:+ l)
    (hh₁ : s₁.head? = some m) (hh₂ : s₂.head? = some m) : s₁ = s₂ := by
  have main : ∀ (p q : List α), p <:+ l → q <:+ l → p.head? = some m →
      q.head? = some m → p.length ≤ q.length → p = q := by
    intro p q hp hq hhp hhq hlen
    have hpq : p <:+ q := suffix_total p q l hp hq hlen
    obtain ⟨c, q₂, rfl⟩ : ∃ c q₂, q = c :: q₂ := by
      cases q with
      | nil => simp at hhq
      | cons c q₂ => exact ⟨c, q₂, rfl⟩
    rcases suffix_cons_elim p c q₂ hpq with heq | hsuf
    · exact heq
    · obtain ⟨d, p₂, rfl⟩ : ∃ d p₂, p = d :: p₂ := by
        cases p with
        | nil => simp at hhp
        | cons d p₂ => exact ⟨d, p₂, rfl⟩
      have hdc : d = c := by
        have hd₁ : d = m := by simpa using hhp
        have hc₁ : c = m := by simpa using hhq
        rw [hd₁, hc₁]
      have hmem : c ∈ q₂ := by
        have hdm : d ∈ q₂ := hsuf.subset (by simp)
        rwa [hdc] at hdm
      have hq₂nd : (c :: q₂).Nodup := hnd.sublist hq.sublist
      rw [List.nodup_cons] at hq₂nd
      exact absurd hmem hq₂nd.1
  rcases Nat.le_total s₁.length s₂.length with hle | hle
  · exact main s₁ s₂ h₁ h₂ hh₁ hh₂ hle
  · exact (main s₂ s₁ h₂ h₁ hh₂ hh₁ hle).symm

/-- A successful `find?` splits the list at the found element, everything
before it failing the predicate. -/
theorem find?_decomp {α : Type} (p : α → Bool) :
    ∀ (l : List α) (x : α), l.find? p = some x →
      ∃ a b, l = a ++ x :: b ∧ (∀ m ∈ a, p m = false) ∧ p x = true := by
  intro l
  induction l with
  | nil => intro x h; simp [List.find?] at h
  | cons h t ih =>
      intro x hf
      rw [List.find?] at hf
      cases hp : p h with
      | true =>
          rw [hp] at hf
          have : h = x := by simpa using hf
          subst this
          exact ⟨[], t, by simp, by simp, hp⟩
      | false =>
          rw [hp] at hf
          obtain ⟨a, b, rfl, ha, hx⟩ := ih x hf
          refine ⟨h :: a, b, by simp, ?_, hx⟩
          intro m hm
          rcases List.mem_cons.mp hm with rfl | hm₂
          · exact hp
          · exact ha m hm₂

/-- A suffix whose elements avoid the front part of an append is a suffix of
the back part. -/
theorem suffix_of_disjoint_front {α : Type} (s a t : List α)
    (h : s <:+ (a ++ t)) (hdisj : ∀ m ∈ s, ¬ m ∈ a) : s <:+ t := by
  rcases Nat.le_total s.length t.length with hle | hle
  · exact suffix_total s t (a ++ t) h (List.suffix_append a t) hle
  · have hts : t <:+ s :=
      suffix_total t s (a ++ t) (List.suffix_append a t) h hle
    obtain ⟨u, hu⟩ := hts
    cases u with
    | nil => rw [← hu]; simp only [List.nil_append]; exact List.suffix_refl t
    | cons c u₂ =>
        obtain ⟨v, hv⟩ := h
        rw [← hu] at hv
        have hva : v ++ (c :: u₂) = a := by
          have := hv
          rw [← List.append_assoc] at this
          exact List.append_left_injective t this
        have hca : c ∈ a := by
          rw [← hva]; simp
        have hcs : c ∈ s := by rw [← hu]; simp
        exact absurd hca (hdisj c hcs)

/-- The first element of one ancestor chain lying in another is symmetric in
the two chains: both directions find the same meeting point. -/
theorem firstCommon_symm (defs : Defs) (f : Nat) (n₁ n₂ : String)
    (l1 l2 : List String) (x y : String)
    (h1 : chainToObject defs f n₁ = some l1)
    (h2 : chainToObject defs f n₂ = some l2)
    (hx : l2.find? (fun m => decide (m ∈ l1)) = some x)
    (hy : l1.find? (fun m => decide (m ∈ l2)) = some y) : x = y := by
  obtain ⟨a2, b2, hl2eq, ha2, hxp⟩ := find?_decomp _ l2 x hx
  obtain ⟨a1, b1, hl1eq, ha1, hyp⟩ := find?_decomp _ l1 y hy
  have hx1 : x ∈ l1 := by simpa using hxp
  have hy2 : y ∈ l2 := by simpa using hyp
  have hx2 : x ∈ l2 := by rw [hl2eq]; simp
  have hy1 : y ∈ l1 := by rw [hl1eq]; simp
  -- the chain starting at x, a common suffix of both chains
  obtain ⟨cx, hcx, hcx1, hcxh⟩ := chainToObject_mem_suffix defs f n₁ l1 x h1 hx1
  obtain ⟨cx₂, hcx₂, hcx2, hcxh₂⟩ := chainToObject_mem_suffix defs f n₂ l2 x h2 hx2
  have hcxeq : cx₂ = cx := chainToObject_unique defs f f x cx₂ cx hcx₂ hcx
  rw [hcxeq] at hcx2 hcxh₂
  -- the chain starting at y, a common suffix of both chains
  obtain ⟨cy, hcy, hcy1, hcyh⟩ := chainToObject_mem_suffix defs f n₁ l1 y h1 hy1
  obtain ⟨cy₂, hcy₂, hcy2, hcyh₂⟩ := chainToObject_mem_suffix defs f n₂ l2 y h2 hy2
  have hcyeq : cy₂ = cy := chainToObject_unique defs f f y cy₂ cy hcy₂ hcy
  rw [hcyeq] at hcy2 hcyh₂
  have hnd1 : l1.Nodup := chainToObject_nodup defs f n₁ l1 h1
  have hnd2 : l2.Nodup := chainToObject_nodup defs f n₂ l2 h2
  -- cx avoids a1 (its elements are in l2, a1's are not), so cx <:+ y :: b1 = cy
  have hcy_eq : cy = y :: b1 := by
    have hsuf : (y :: b1) <:+ l1 := by rw [hl1eq]; exact ⟨a1, rfl⟩
    exact nodup_suffix_head_unique l1 cy (y :: b1) y hnd1 hcy1 hsuf hcyh rfl
  have hcx_suffix_cy : cx <:+ cy := by
    rw [hcy_eq]
    have h₁ : cx <:+ (a1 ++ y :: b1) := by rw [← hl1eq]; exact hcx1
    refine suffix_of_disjoint_front cx a1 (y :: b1) h₁ ?_
    intro m hm hma
    have hml2 : m ∈ l2 := hcx2.subset hm
    have := ha1 m hma
    simp [hml2] at this
  have hcx_eq : cx = x :: b2 := by
    have hsuf : (x :: b2) <:+ l2 := by rw [hl2eq]; exact ⟨a2, rfl⟩
    exact nodup_suffix_head_unique l2 cx (x :: b2) x hnd2 hcx2 hsuf hcxh rfl
  have hcy_suffix_cx : cy <:+ cx := by
    rw [hcx_eq]
    have h₁ : cy <:+ (a2 ++ x :: b2) := by rw [← hl2eq]; exact hcy2
    refine suffix_of_disjoint_front cy a2 (x :: b2) h₁ ?_
    intro m hm hma
    have hml1 : m ∈ l1 := hcy1.subset hm
    have := ha2 m hma
    simp [hml1] at this
  have hlen : cx.length = cy.length :=
    Nat.le_antisymm hcx_suffix_cy.length_le hcy_suffix_cx.length_le
  have hceq : cx = cy := hcx_suffix_cy.eq_of_length hlen
  have : some x = some y := by
    rw [← hcxh, hceq, hcyh]
  exact Option.some.inj this

/-- A successful lookup's key-value pair is an entry of the map. -/
theorem lookupMap_mem {α : Type} (m : List (String × α)) (k : String) (v : α)
    (h : lookupMap m k = some v) : (k, v) ∈ m := by
  induction m with
  | nil => simp [lookupMap] at h
  | cons e rest ih =>
      rw [lookupMap] at h
      by_cases he : e.1 = k
      · have hv : e.2 = v := by simpa [he] using h
        have he2 : e = (k, v) := by
          rw [← he, ← hv]
        rw [he2]
        exact List.mem_cons_self _ _
      · simp only [he, if_false] at h
        exact List.mem_cons_of_mem e (ih h)

/-- A type value is resolved when it is what `resolveType` builds from its
name — every type the checker joins is built this way. -/
def Resolved (defs : Defs) (t : Ty) : Prop :=
  t = resolveType defs t.name

/-- Chain well-formedness of one name: the parent chain reaches `Object`
within `defs.length + 1` steps and passes through no empty name. -/
def ChainOk (defs : Defs) (n : String) : Prop :=
  ∃ l, chainToObject defs (defs.length + 1) n = some l ∧ ¬ "" ∈ l

/-- Hierarchy well-formedness of a class table: every entry's chain is
well-formed (what `validateInheritanceHierarchy` establishes before the
checker runs). -/
def WFDefs (defs : Defs) : Prop :=
  ∀ e ∈ defs, ChainOk defs e.1

/-- A resolved non-error primitive is one of the four primitive names. -/
theorem resolved_prim_name (defs : Defs) (t : Ty) (h : Resolved defs t)
    (hk : t.kind = Kind.PRIMITIVE) (he : t.isError = false) :
    t.name = "int32" ∨ t.name = "bool" ∨ t.name = "string" ∨ t.name = "unit" := by
  rw [Resolved, resolveType] at h
  by_cases h1 : t.name = "int32"
  · exact Or.inl h1
  by_cases h2 : t.name = "bool"
  · exact Or.inr (Or.inl h2)
  by_cases h3 : t.name = "string"
  · exact Or.inr (Or.inr (Or.inl h3))
  by_cases h4 : t.name = "unit"
  · exact Or.inr (Or.inr (Or.inr h4))
  exfalso
  simp only [h1, h2, h3, h4, if_false] at h
  by_cases h5 : (lookupMap defs t.name).isSome
  · rw [if_pos h5] at h
    rw [h] at hk
    cases hk
  · rw [if_neg h5] at h
    by_cases h6 : t.name = "Object"
    · rw [if_pos h6] at h
      rw [h] at hk
      cases hk
    · rw [if_neg h6] at h
      rw [Ty.isError] at he
      rw [h] at he
      simp [Ty.Error] at he

/-- A valid resolved class type's name is a key of the class table. -/
theorem resolved_class_key (defs : Defs) (t : Ty) (h : Resolved defs t)
    (hk : t.kind = Kind.CLASS) (hv : isTypeValid defs t.name = true) :
    (lookupMap defs t.name).isSome := by
  rw [Resolved, resolveType] at h
  by_cases h1 : t.name = "int32"
  · rw [if_pos h1] at h; rw [h] at hk; cases hk
  by_cases h2 : t.name = "bool"
  · rw [if_neg h1, if_pos h2] at h; rw [h] at hk; cases hk
  by_cases h3 : t.name = "string"
  · rw [if_neg h1, if_neg h2, if_pos h3] at h; rw [h] at hk; cases hk
  by_cases h4 : t.name = "unit"
  · rw [if_neg h1, if_neg h2, if_neg h3, if_pos h4] at h; rw [h] at hk; cases hk
  by_cases h5 : (lookupMap defs t.name).isSome
  · exact h5
  · exfalso
    rw [isTypeValid] at hv
    simp [h1, h2, h3, h4, h5] at hv

/-- Two resolved types with the same name are equal. -/
theorem resolved_eq_of_name_eq (defs : Defs) (t1 t2 : Ty)
    (h1 : Resolved defs t1) (h2 : Resolved defs t2)
    (heq : t1.name = t2.name) : t1 = t2 := by
  rw [Resolved] at h1 h2
  rw [h1, h2, heq]

/-- The `conformsTo` walk from `Object` fails at once. -/
theorem conformsWalk_from_object (defs : Defs) (fuel : Nat) (target : String) :
    conformsWalk defs (fuel + 1) "Object" target = false := by
  rw [conformsWalk]
  simp

/-- A class type conforms to a class type named `Object`. -/
theorem conformsTo_to_object (defs : Defs) (t1 t2 : Ty)
    (he1 : t1.isError = false) (hobj : t2.name = "Object") :
    t1.conformsTo t2 defs = true := by
  rw [Ty.conformsTo]
  by_cases heq : t1.name = t2.name
  · simp [heq]
  · have he2 : t2.isError = false := by simp [Ty.isError, hobj]
    simp only [heq, if_false, he1, he2, Bool.or_self, Bool.false_eq_true, if_false]
    by_cases hk : t1.kind = Kind.PRIMITIVE ∨ t2.kind = Kind.PRIMITIVE
    · simp [hk, hobj]
    · simp [hk, hobj]

/-- For class-kind types with distinct non-error names and a target other
than `Object`, `conformsTo` is membership of the target in the source
chain's tail. -/
theorem conformsTo_class_class (defs : Defs) (t1 t2 : Ty) (l1 : List String)
    (hc1 : chainToObject defs (defs.length + 1) t1.name = some l1)
    (hnb1 : ¬ "" ∈ l1)
    (hk1 : t1.kind = Kind.CLASS) (hk2 : t2.kind = Kind.CLASS)
    (he1 : t1.isError = false) (he2 : t2.isError = false)
    (hne : ¬ t1.name = t2.name) (hobj2 : ¬ t2.name = "Object") :
    t1.conformsTo t2 defs = decide (t2.name ∈ l1.tail) := by
  rw [Ty.conformsTo]
  have hkk : ¬ (t1.kind = Kind.PRIMITIVE ∨ t2.kind = Kind.PRIMITIVE) := by
    rw [hk1, hk2]; simp
  simp only [hne, if_false, he1, he2, Bool.or_self, Bool.false_eq_true, hkk,
    hobj2, reduceIte]
  have := conformsWalk_chain defs (defs.length + 1) t1.name t2.name l1
    (defs.length + 1) hc1 hnb1 hobj2
    (chainToObject_length_le defs (defs.length + 1) t1.name l1 hc1)
  rw [this]
  simp

/-- Two distinct classes cannot both appear in each other's proper ancestor
chain. -/
theorem chain_tail_mem_antisymm (defs : Defs) (f : Nat) (n₁ n₂ : String)
    (l1 l2 : List String)
    (h1 : chainToObject defs f n₁ = some l1)
    (h2 : chainToObject defs f n₂ = some l2)
    (hm1 : n₂ ∈ l1.tail) (hm2 : n₁ ∈ l2.tail) : False := by
  have hh1 : l1.head? = some n₁ := chainToObject_head defs f n₁ l1 h1
  have hh2 : l2.head? = some n₂ := chainToObject_head defs f n₂ l2 h2
  obtain ⟨t1, rfl⟩ : ∃ t, l1 = n₁ :: t := by
    cases l1 with
    | nil => simp at hh1
    | cons a t =>
        have ha : a = n₁ := by simpa using hh1
        exact ⟨t, by rw [ha]⟩
  obtain ⟨t2, rfl⟩ : ∃ t, l2 = n₂ :: t := by
    cases l2 with
    | nil => simp at hh2
    | cons a t =>
        have ha : a = n₂ := by simpa using hh2
        exact ⟨t, by rw [ha]⟩
  simp only [List.tail_cons] at hm1 hm2
  have hne : ¬ n₁ = n₂ := by
    intro hc
    subst hc
    have hnd := chainToObject_nodup defs f n₁ (n₁ :: t1) h1
    rw [List.nodup_cons] at hnd
    exact hnd.1 hm1
  obtain ⟨c2, hc2, hs2, hh2'⟩ :=
    chainToObject_mem_suffix defs f n₁ (n₁ :: t1) n₂ h1 (List.mem_cons_of_mem _ hm1)
  have hc2eq : c2 = n₂ :: t2 := by
    have := chainToObject_unique defs f f n₂ c2 (n₂ :: t2) hc2 h2
    exact this
  subst hc2eq
  obtain ⟨c1, hc1, hs1, hh1'⟩ :=
    chainToObject_mem_suffix defs f n₂ (n₂ :: t2) n₁ h2 (List.mem_cons_of_mem _ hm2)
  have hc1eq : c1 = n₁ :: t1 := by
    exact chainToObject_unique defs f f n₁ c1 (n₁ :: t1) hc1 h1
  subst hc1eq
  have hlen1 : (n₂ :: t2).length < (n₁ :: t1).length := by
    have hle := hs2.length_le
    rcases Nat.lt_or_ge (n₂ :: t2).length (n₁ :: t1).length with h | h
    · exact h
    · exfalso
      have heq : (n₂ :: t2) = (n₁ :: t1) := hs2.eq_of_length (Nat.le_antisymm hle h)
      have : n₂ = n₁ := by simpa using congrArg List.head? heq
      exact hne this.symm
  have hlen2 : (n₁ :: t1).length < (n₂ :: t2).length := by
    have hle := hs1.length_le
    rcases Nat.lt_or_ge (n₁ :: t1).length (n₂ :: t2).length with h | h
    · exact h
    · exfalso
      have heq : (n₁ :: t1) = (n₂ :: t2) := hs1.eq_of_length (Nat.le_antisymm hle h)
      have : n₁ = n₂ := by simpa using congrArg List.head? heq
      exact hne this
  omega

/-- Conformance from a non-error primitive to a differently-named non-error
non-`Object` target is false. -/
theorem conformsTo_from_primitive_false (defs : Defs) (P T : Ty)
    (hk : P.kind = Kind.PRIMITIVE) (he : P.name ≠ "__error__")
    (hne : ¬ T.name = P.name) (hte : ¬ T.name = "__error__")
    (hto : ¬ T.name = "Object") : P.conformsTo T defs = false := by
  rcases Bool.eq_false_or_eq_true (P.conformsTo T defs) with h | h
  swap
  · exact h
  · rcases (conformsTo_primitive_iff defs P T hk he).mp h with hc | hc | hc
    · exact absurd hc hne
    · exact absurd hc hte
    · exact absurd hc hto

/-- Conformance to a primitive-kind target: decided by whether the target is
named `Object` (for distinct non-error names). -/
theorem conformsTo_to_primitive (defs : Defs) (T P : Ty)
    (hkP : P.kind = Kind.PRIMITIVE) (hne : ¬ T.name = P.name)
    (heT : T.isError = false) (heP : P.isError = false) :
    T.conformsTo P defs = decide (P.name = "Object") := by
  rw [Ty.conformsTo, if_neg hne,
    if_neg (by simp [heT, heP] : ¬ ((T.isError : Prop) ∨ (P.isError : Prop))),
    if_pos (Or.inr hkP)]

/-- A class named `Object` conforms to no differently-named non-error
non-`Object` class type. -/
theorem conformsTo_from_object_false (defs : Defs) (t1 t2 : Ty)
    (h1name : t1.name = "Object")
    (hk1 : t1.kind = Kind.CLASS) (hk2 : t2.kind = Kind.CLASS)
    (hne : ¬ t1.name = t2.name) (he2 : t2.isError = false)
    (hobj2 : ¬ t2.name = "Object") : t1.conformsTo t2 defs = false := by
  rw [Ty.conformsTo]
  have he1 : t1.isError = false := by simp [Ty.isError, h1name]
  have hkk : ¬ (t1.kind = Kind.PRIMITIVE ∨ t2.kind = Kind.PRIMITIVE) := by
    rw [hk1, hk2]; simp
  simp only [hne, if_false, he1, he2, Bool.or_self, Bool.false_eq_true, hkk,
    hobj2, reduceIte]
  rw [h1name]
  exact conformsWalk_from_object defs defs.length t2.name

/-- An element of a list that is not its head is in its tail. -/
theorem mem_tail_of_ne_head {α : Type} (l : List α) (a h : α)
    (ha : a ∈ l) (hh : l.head? = some h) (hne : a ≠ h) : a ∈ l.tail := by
  cases l with
  | nil => simp at ha
  | cons b t =>
      have hb : b = h := by simpa using hh
      subst hb
      rcases List.mem_cons.mp ha with rfl | hm
      · exact absurd rfl hne
      · simpa using hm

/-- The value of `getLast?` is a member. -/
theorem mem_of_getLast? {α : Type} :
    ∀ (l : List α) (a : α), l.getLast? = some a → a ∈ l := by
  intro l
  induction l with
  | nil => intro a h; simp at h
  | cons b t ih =>
      intro a h
      cases t with
      | nil =>
          simp at h
          simp [h]
      | cons c u =>
          rw [List.getLast?_cons_cons] at h
          exact List.mem_cons_of_mem b (ih a h)

/-- If some member satisfies the predicate, `find?` succeeds. -/
theorem find?_exists_of_mem {α : Type} (p : α → Bool) (l : List α) (a : α)
    (ha : a ∈ l) (hp : p a = true) : ∃ x, l.find? p = some x := by
  cases hf : l.find? p with
  | some x => exact ⟨x, rfl⟩
  | none =>
      exfalso
      have := List.find?_eq_none.mp hf a ha
      rw [hp] at this
      exact this rfl

/-- A valid resolved class type has a well-formed chain (under hierarchy
well-formedness). -/
theorem chainOk_of_class (defs : Defs) (hwf : WFDefs defs) (t : Ty)
    (h : Resolved defs t) (hk : t.kind = Kind.CLASS)
    (hv : isTypeValid defs t.name = true) : ChainOk defs t.name := by
  have hkey := resolved_class_key defs t h hk hv
  obtain ⟨d, hd⟩ := Option.isSome_iff_exists.mp hkey
  exact hwf (t.name, d) (lookupMap_mem defs t.name d hd)

/-- A resolved class type named `Object` has class kind. -/
theorem resolved_object_kind (defs : Defs) (t : Ty) (h : Resolved defs t)
    (hn : t.name = "Object") : t.kind = Kind.CLASS := by
  have hk := congrArg Ty.kind h
  rw [hn] at hk
  rw [hk]
  by_cases hs : (lookupMap defs "Object").isSome
  · simp [resolveType, hs]
  · simp [resolveType, hs, Ty.ObjectT]

/-- A class type conforms (as a class) to every element of its own ancestor
chain. -/
theorem conformsTo_chain_elem (defs : Defs) (t : Ty) (l : List String) (y : String)
    (hl : chainToObject defs (defs.length + 1) t.name = some l) (hnb : ¬ "" ∈ l)
    (hk : t.kind = Kind.CLASS) (he : t.isError = false) (hy : y ∈ l) :
    t.conformsTo ⟨y, Kind.CLASS⟩ defs = true := by
  by_cases hyn : t.name = y
  · rw [Ty.conformsTo]; simp [hyn]
  · by_cases hye : y = "__error__"
    · rw [Ty.conformsTo]
      simp [hyn, Ty.isError, hye]
    · by_cases hyo : y = "Object"
      · exact conformsTo_to_object defs t ⟨y, Kind.CLASS⟩ he (by simp [hyo])
      · have hhead := chainToObject_head defs (defs.length + 1) t.name l hl
        have htail : y ∈ l.tail :=
          mem_tail_of_ne_head l y t.name hy hhead (fun hc => hyn hc.symm)
        have hcc := conformsTo_class_class defs t ⟨y, Kind.CLASS⟩ l hl hnb hk rfl he
          (by simp [Ty.isError, hye]) (by simpa using hyn) (by simpa using hyo)
        rw [hcc]
        simp [htail]

/-- Core of claim C5 on non-error, valid, resolved inputs: the join is
commutative, both inputs conform to it, and it is a class type unless the two
inputs are equal. -/
theorem findCommonAncestor_main (defs : Defs) (hwf : WFDefs defs) (t1 t2 : Ty)
    (h1 : Resolved defs t1) (h2 : Resolved defs t2)
    (he1 : t1.isError = false) (he2 : t2.isError = false)
    (hv1 : isTypeValid defs t1.name = true) (hv2 : isTypeValid defs t2.name = true) :
    findCommonAncestor defs t1 t2 = findCommonAncestor defs t2 t1 ∧
    t1.conformsTo (findCommonAncestor defs t1 t2) defs = true ∧
    t2.conformsTo (findCommonAncestor defs t1 t2) defs = true ∧
    ((findCommonAncestor defs t1 t2).kind = Kind.CLASS ∨ t1 = t2) := by
  have hne : ¬ ((t1.isError : Prop) ∨ (t2.isError : Prop)) := by simp [he1, he2]
  have hne' : ¬ ((t2.isError : Prop) ∨ (t1.isError : Prop)) := by simp [he1, he2]
  have hnv : ¬ (¬ (isTypeValid defs t1.name : Prop) ∨ ¬ (isTypeValid defs t2.name : Prop)) := by
    simp [hv1, hv2]
  have hnv' : ¬ (¬ (isTypeValid defs t2.name : Prop) ∨ ¬ (isTypeValid defs t1.name : Prop)) := by
    simp [hv1, hv2]
  have hen1 : ¬ t1.name = "__error__" := by
    intro hc; rw [Ty.isError, hc] at he1; simp at he1
  have hen2 : ¬ t2.name = "__error__" := by
    intro hc; rw [Ty.isError, hc] at he2; simp at he2
  have hself1 : t1.conformsTo t1 defs = true := by rw [Ty.conformsTo]; simp
  have hself2 : t2.conformsTo t2 defs = true := by rw [Ty.conformsTo]; simp
  by_cases heq : t1.name = t2.name
  · have hteq : t1 = t2 := resolved_eq_of_name_eq defs t1 t2 h1 h2 heq
    subst hteq
    have hj : findCommonAncestor defs t1 t1 = t1 := by
      rw [findCommonAncestor, if_neg hne, if_neg hnv, if_pos rfl]
    rw [hj]
    exact ⟨rfl, hself1, hself1, Or.inr rfl⟩
  · have heq' : ¬ t2.name = t1.name := fun hc => heq hc.symm
    by_cases k1 : t1.kind = Kind.PRIMITIVE
    · have hpn1 := resolved_prim_name defs t1 h1 k1 he1
      have hno1 : ¬ t1.name = "Object" := by
        rcases hpn1 with h | h | h | h <;> simp [h]
      have hc21 : t2.conformsTo t1 defs = false := by
        rw [conformsTo_to_primitive defs t2 t1 k1 heq' he2 he1]
        simp [hno1]
      by_cases hobj2 : t2.name = "Object"
      · have hc12 : t1.conformsTo t2 defs = true :=
          conformsTo_to_object defs t1 t2 he1 hobj2
        have hj12 : findCommonAncestor defs t1 t2 = t2 := by
          rw [findCommonAncestor, if_neg hne, if_neg hnv, if_neg heq, if_pos hc12]
        have hj21 : findCommonAncestor defs t2 t1 = t2 := by
          rw [findCommonAncestor, if_neg hne', if_neg hnv', if_neg heq',
            if_neg (by simp [hc21] : ¬ (t2.conformsTo t1 defs : Prop)), if_pos hc12]
        rw [hj12, hj21]
        exact ⟨rfl, hc12, hself2, Or.inl (resolved_object_kind defs t2 h2 hobj2)⟩
      · have hc12 : t1.conformsTo t2 defs = false :=
          conformsTo_from_primitive_false defs t1 t2 k1 hen1 heq' hen2 hobj2
        have hj12 : findCommonAncestor defs t1 t2 = Ty.ObjectT := by
          rw [findCommonAncestor, if_neg hne, if_neg hnv, if_neg heq,
            if_neg (by simp [hc12] : ¬ (t1.conformsTo t2 defs : Prop)),
            if_neg (by simp [hc21] : ¬ (t2.conformsTo t1 defs : Prop)),
            if_pos (Or.inl k1)]
        have hj21 : findCommonAncestor defs t2 t1 = Ty.ObjectT := by
          rw [findCommonAncestor, if_neg hne', if_neg hnv', if_neg heq',
            if_neg (by simp [hc21] : ¬ (t2.conformsTo t1 defs : Prop)),
            if_neg (by simp [hc12] : ¬ (t1.conformsTo t2 defs : Prop)),
            if_pos (Or.inr k1)]
        rw [hj12, hj21]
        exact ⟨rfl, conformsTo_to_object defs t1 Ty.ObjectT he1 rfl,
          conformsTo_to_object defs t2 Ty.ObjectT he2 rfl, Or.inl rfl⟩
    · by_cases k2 : t2.kind = Kind.PRIMITIVE
      · have hpn2 := resolved_prim_name defs t2 h2 k2 he2
        have hno2 : ¬ t2.name = "Object" := by
          rcases hpn2 with h | h | h | h <;> simp [h]
        have hc12 : t1.conformsTo t2 defs = false := by
          rw [conformsTo_to_primitive defs t1 t2 k2 heq he1 he2]
          simp [hno2]
        by_cases hobj1 : t1.name = "Object"
        · have hc21 : t2.conformsTo t1 defs = true :=
            conformsTo_to_object defs t2 t1 he2 hobj1
          have hj12 : findCommonAncestor defs t1 t2 = t1 := by
            rw [findCommonAncestor, if_neg hne, if_neg hnv, if_neg heq,
              if_neg (by simp [hc12] : ¬ (t1.conformsTo t2 defs : Prop)), if_pos hc21]
          have hj21 : findCommonAncestor defs t2 t1 = t1 := by
            rw [findCommonAncestor, if_neg hne', if_neg hnv', if_neg heq', if_pos hc21]
          rw [hj12, hj21]
          exact ⟨rfl, hself1, hc21, Or.inl (resolved_object_kind defs t1 h1 hobj1)⟩
        · have hc21 : t2.conformsTo t1 defs = false :=
            conformsTo_from_primitive_false defs t2 t1 k2 hen2 heq hen1 hobj1
          have hj12 : findCommonAncestor defs t1 t2 = Ty.ObjectT := by
            rw [findCommonAncestor, if_neg hne, if_neg hnv, if_neg heq,
              if_neg (by simp [hc12] : ¬ (t1.conformsTo t2 defs : Prop)),
              if_neg (by simp [hc21] : ¬ (t2.conformsTo t1 defs : Prop)),
              if_pos (Or.inr k2)]
          have hj21 : findCommonAncestor defs t2 t1 = Ty.ObjectT := by
            rw [findCommonAncestor, if_neg hne', if_neg hnv', if_neg heq',
              if_neg (by simp [hc21] : ¬ (t2.conformsTo t1 defs : Prop)),
              if_neg (by simp [hc12] : ¬ (t1.conformsTo t2 defs : Prop)),
              if_pos (Or.inl k2)]
          rw [hj12, hj21]
          exact ⟨rfl, conformsTo_to_object defs t1 Ty.ObjectT he1 rfl,
            conformsTo_to_object defs t2 Ty.ObjectT he2 rfl, Or.inl rfl⟩
      · have hk1c : t1.kind = Kind.CLASS := by
          cases hk : t1.kind with
          | PRIMITIVE => exact absurd hk k1
          | CLASS => rfl
        have hk2c : t2.kind = Kind.CLASS := by
          cases hk : t2.kind with
          | PRIMITIVE => exact absurd hk k2
          | CLASS => rfl
        obtain ⟨l1, hl1, hnb1⟩ := chainOk_of_class defs hwf t1 h1 hk1c hv1
        obtain ⟨l2, hl2, hnb2⟩ := chainOk_of_class defs hwf t2 h2 hk2c hv2
        by_cases hobj2 : t2.name = "Object"
        · have hobj1 : ¬ t1.name = "Object" := by rw [← hobj2]; exact heq
          have hc12 : t1.conformsTo t2 defs = true :=
            conformsTo_to_object defs t1 t2 he1 hobj2
          have hc21 : t2.conformsTo t1 defs = false :=
            conformsTo_from_object_false defs t2 t1 hobj2 hk2c hk1c heq' he1 hobj1
          have hj12 : findCommonAncestor defs t1 t2 = t2 := by
            rw [findCommonAncestor, if_neg hne, if_neg hnv, if_neg heq, if_pos hc12]
          have hj21 : findCommonAncestor defs t2 t1 = t2 := by
            rw [findCommonAncestor, if_neg hne', if_neg hnv', if_neg heq',
              if_neg (by simp [hc21] : ¬ (t2.conformsTo t1 defs : Prop)), if_pos hc12]
          rw [hj12, hj21]
          exact ⟨rfl, hc12, hself2, Or.inl hk2c⟩
        · by_cases hobj1 : t1.name = "Object"
          · have hc21 : t2.conformsTo t1 defs = true :=
              conformsTo_to_object defs t2 t1 he2 hobj1
            have hc12 : t1.conformsTo t2 defs = false :=
              conformsTo_from_object_false defs t1 t2 hobj1 hk1c hk2c heq he2 hobj2
            have hj12 : findCommonAncestor defs t1 t2 = t1 := by
              rw [findCommonAncestor, if_neg hne, if_neg hnv, if_neg heq,
                if_neg (by simp [hc12] : ¬ (t1.conformsTo t2 defs : Prop)), if_pos hc21]
            have hj21 : findCommonAncestor defs t2 t1 = t1 := by
              rw [findCommonAncestor, if_neg hne', if_neg hnv', if_neg heq', if_pos hc21]
            rw [hj12, hj21]
            exact ⟨rfl, hself1, hc21, Or.inl hk1c⟩
          · have hc12e : t1.conformsTo t2 defs = decide (t2.name ∈ l1.tail) :=
              conformsTo_class_class defs t1 t2 l1 hl1 hnb1 hk1c hk2c he1 he2 heq hobj2
            have hc21e : t2.conformsTo t1 defs = decide (t1.name ∈ l2.tail) :=
              conformsTo_class_class defs t2 t1 l2 hl2 hnb2 hk2c hk1c he2 he1 heq' hobj1
            by_cases hm12 : t2.name ∈ l1.tail
            · have hc12 : t1.conformsTo t2 defs = true := by rw [hc12e]; simp [hm12]
              have hm21 : ¬ t1.name ∈ l2.tail := by
                intro hc
                exact chain_tail_mem_antisymm defs (defs.length + 1) t1.name t2.name
                  l1 l2 hl1 hl2 hm12 hc
              have hc21 : t2.conformsTo t1 defs = false := by rw [hc21e]; simp [hm21]
              have hj12 : findCommonAncestor defs t1 t2 = t2 := by
                rw [findCommonAncestor, if_neg hne, if_neg hnv, if_neg heq, if_pos hc12]
              have hj21 : findCommonAncestor defs t2 t1 = t2 := by
                rw [findCommonAncestor, if_neg hne', if_neg hnv', if_neg heq',
                  if_neg (by simp [hc21] : ¬ (t2.conformsTo t1 defs : Prop)), if_pos hc12]
              rw [hj12, hj21]
              exact ⟨rfl, hc12, hself2, Or.inl hk2c⟩
            · have hc12 : t1.conformsTo t2 defs = false := by rw [hc12e]; simp [hm12]
              by_cases hm21 : t1.name ∈ l2.tail
              · have hc21 : t2.conformsTo t1 defs = true := by rw [hc21e]; simp [hm21]
                have hj12 : findCommonAncestor defs t1 t2 = t1 := by
                  rw [findCommonAncestor, if_neg hne, if_neg hnv, if_neg heq,
                    if_neg (by simp [hc12] : ¬ (t1.conformsTo t2 defs : Prop)), if_pos hc21]
                have hj21 : findCommonAncestor defs t2 t1 = t1 := by
                  rw [findCommonAncestor, if_neg hne', if_neg hnv', if_neg heq', if_pos hc21]
                rw [hj12, hj21]
                exact ⟨rfl, hself1, hc21, Or.inl hk1c⟩
              · have hc21 : t2.conformsTo t1 defs = false := by rw [hc21e]; simp [hm21]
                have hpno : ¬ (t1.kind = Kind.PRIMITIVE ∨ t2.kind = Kind.PRIMITIVE) := by
                  rw [hk1c, hk2c]; simp
                have hpno' : ¬ (t2.kind = Kind.PRIMITIVE ∨ t1.kind = Kind.PRIMITIVE) := by
                  rw [hk1c, hk2c]; simp
                have hOb1 : "Object" ∈ l1 :=
                  mem_of_getLast? l1 "Object"
                    (chainToObject_last defs (defs.length + 1) t1.name l1 hl1).2
                have hOb2 : "Object" ∈ l2 :=
                  mem_of_getLast? l2 "Object"
                    (chainToObject_last defs (defs.length + 1) t2.name l2 hl2).2
                have hal1 : ancestorsLoop defs (defs.length + 1) t1.name [] =
                    some (l1.reverse ++ []) :=
                  ancestorsLoop_chain defs (defs.length + 1) t1.name l1 []
                    (defs.length + 1) hl1 hnb1
                    (chainToObject_length_le defs (defs.length + 1) t1.name l1 hl1)
                have hal2 : ancestorsLoop defs (defs.length + 1) t2.name [] =
                    some (l2.reverse ++ []) :=
                  ancestorsLoop_chain defs (defs.length + 1) t2.name l2 []
                    (defs.length + 1) hl2 hnb2
                    (chainToObject_length_le defs (defs.length + 1) t2.name l2 hl2)
                obtain ⟨x, hx⟩ :=
                  find?_exists_of_mem (fun m => decide (m ∈ l1)) l2 "Object" hOb2
                    (by simp [hOb1])
                obtain ⟨y, hy⟩ :=
                  find?_exists_of_mem (fun m => decide (m ∈ l2)) l1 "Object" hOb1
                    (by simp [hOb2])
                have hxy : x = y :=
                  firstCommon_symm defs (defs.length + 1) t1.name t2.name l1 l2 x y
                    hl1 hl2 hx hy
                have hfeq1 : (fun m : String => decide (m ∈ l1.reverse ++ [])) =
                    (fun m : String => decide (m ∈ l1)) := by
                  funext m
                  simp
                have hfeq2 : (fun m : String => decide (m ∈ l2.reverse ++ [])) =
                    (fun m : String => decide (m ∈ l2)) := by
                  funext m
                  simp
                have hw12 : commonWalk defs (l1.reverse ++ []) (defs.length + 1) t2.name =
                    ⟨x, Kind.CLASS⟩ :=
                  commonWalk_chain defs (defs.length + 1) t2.name l2 (l1.reverse ++ []) x
                    (defs.length + 1) hl2 hnb2
                    (chainToObject_length_le defs (defs.length + 1) t2.name l2 hl2)
                    (by rw [hfeq1]; exact hx)
                have hw21 : commonWalk defs (l2.reverse ++ []) (defs.length + 1) t1.name =
                    ⟨y, Kind.CLASS⟩ :=
                  commonWalk_chain defs (defs.length + 1) t1.name l1 (l2.reverse ++ []) y
                    (defs.length + 1) hl1 hnb1
                    (chainToObject_length_le defs (defs.length + 1) t1.name l1 hl1)
                    (by rw [hfeq2]; exact hy)
                have hj12 : findCommonAncestor defs t1 t2 = ⟨x, Kind.CLASS⟩ := by
                  rw [findCommonAncestor, if_neg hne, if_neg hnv, if_neg heq,
                    if_neg (by simp [hc12] : ¬ (t1.conformsTo t2 defs : Prop)),
                    if_neg (by simp [hc21] : ¬ (t2.conformsTo t1 defs : Prop)),
                    if_neg hpno, hal1]
                  exact hw12
                have hj21 : findCommonAncestor defs t2 t1 = ⟨y, Kind.CLASS⟩ := by
                  rw [findCommonAncestor, if_neg hne', if_neg hnv', if_neg heq',
                    if_neg (by simp [hc21] : ¬ (t2.conformsTo t1 defs : Prop)),
                    if_neg (by simp [hc12] : ¬ (t1.conformsTo t2 defs : Prop)),
                    if_neg hpno', hal2]
                  exact hw21
                have hy1 : y ∈ l1 := List.mem_of_find?_eq_some hy
                have hy2 : y ∈ l2 := by
                  have := List.find?_some hy
                  simpa using this
                rw [hj12, hj21, hxy]
                refine ⟨rfl, ?_, ?_, Or.inl rfl⟩
                · exact conformsTo_chain_elem defs t1 l1 y hl1 hnb1 hk1c he1 hy1
                · exact conformsTo_chain_elem defs t2 l2 y hl2 hnb2 hk2c he2 hy2

/-- Claim C5, counterexample.  `findCommonAncestor` on `int32` and `int32`
(valid, non-error inputs) returns the primitive `int32`, not a class type,
so "always yields a class type … (or Error …)" is false as stated. -/
theorem C5_counterexample :
    findCommonAncestor [("Object", objectClassDef)] Ty.Int32 Ty.Int32 = Ty.Int32 ∧
    Ty.Int32.kind ≠ Kind.CLASS ∧ Ty.Int32.isError = false := by
  decide

/-- Claim C5, amended.  On a hierarchy-well-formed table and resolved inputs:
the join is commutative; it is `Error` whenever either input is `Error`;
`join(T, T) = T` for every non-error valid type `T` (in particular the join
of equal primitives is that primitive itself, not a class type); the join of
two distinct non-error primitives is `Object`; and for non-error valid inputs
both inputs conform to the join, which is a class type except when the two
inputs are equal. -/
theorem C5_join_properties (defs : Defs) (hwf : WFDefs defs) (t1 t2 : Ty)
    (h1 : Resolved defs t1) (h2 : Resolved defs t2) :
    findCommonAncestor defs t1 t2 = findCommonAncestor defs t2 t1 ∧
    ((t1.isError = true ∨ t2.isError = true) →
      findCommonAncestor defs t1 t2 = Ty.Error) ∧
    (t1.isError = false → isTypeValid defs t1.name = true →
      findCommonAncestor defs t1 t1 = t1) ∧
    (t1.kind = Kind.PRIMITIVE → t2.kind = Kind.PRIMITIVE →
      t1.isError = false → t2.isError = false → ¬ t1.name = t2.name →
      findCommonAncestor defs t1 t2 = Ty.ObjectT) ∧
    (t1.isError = false → t2.isError = false →
      isTypeValid defs t1.name = true → isTypeValid defs t2.name = true →
      t1.conformsTo (findCommonAncestor defs t1 t2) defs = true ∧
      t2.conformsTo (findCommonAncestor defs t1 t2) defs = true ∧
      ((findCommonAncestor defs t1 t2).kind = Kind.CLASS ∨ t1 = t2)) := by
  refine ⟨?_, ?_, ?_, ?_, ?_⟩
  · by_cases he1 : t1.isError = true
    · rw [findCommonAncestor, findCommonAncestor, if_pos (Or.inl he1),
        if_pos (Or.inr he1)]
    · by_cases he2 : t2.isError = true
      · rw [findCommonAncestor, findCommonAncestor, if_pos (Or.inr he2),
          if_pos (Or.inl he2)]
      · have he1f : t1.isError = false := by
          rcases Bool.eq_false_or_eq_true t1.isError with h | h
          · exact absurd h he1
          · exact h
        have he2f : t2.isError = false := by
          rcases Bool.eq_false_or_eq_true t2.isError with h | h
          · exact absurd h he2
          · exact h
        by_cases hv1 : isTypeValid defs t1.name = true
        · by_cases hv2 : isTypeValid defs t2.name = true
          · exact (findCommonAncestor_main defs hwf t1 t2 h1 h2 he1f he2f hv1 hv2).1
          · rw [findCommonAncestor, findCommonAncestor,
              if_neg (by simp [he1f, he2f] : ¬ ((t1.isError : Prop) ∨ (t2.isError : Prop))),
              if_neg (by simp [he1f, he2f] : ¬ ((t2.isError : Prop) ∨ (t1.isError : Prop))),
              if_pos (Or.inr hv2), if_pos (Or.inl hv2)]
        · rw [findCommonAncestor, findCommonAncestor,
            if_neg (by simp [he1f, he2f] : ¬ ((t1.isError : Prop) ∨ (t2.isError : Prop))),
            if_neg (by simp [he1f, he2f] : ¬ ((t2.isError : Prop) ∨ (t1.isError : Prop))),
            if_pos (Or.inl hv1), if_pos (Or.inr hv1)]
  · intro he
    rw [findCommonAncestor, if_pos he]
  · intro he hv
    rw [findCommonAncestor, if_neg (by simp [he] : ¬ ((t1.isError : Prop) ∨ (t1.isError : Prop))),
      if_neg (by simp [hv] :
        ¬ (¬ (isTypeValid defs t1.name : Prop) ∨ ¬ (isTypeValid defs t1.name : Prop))),
      if_pos rfl]
  · intro hk1 hk2 he1 he2 hne
    have hn1 := resolved_prim_name defs t1 h1 hk1 he1
    have hn2 := resolved_prim_name defs t2 h2 hk2 he2
    have hv1 : isTypeValid defs t1.name = true := by
      rcases hn1 with h | h | h | h <;> simp [isTypeValid, h]
    have hv2 : isTypeValid defs t2.name = true := by
      rcases hn2 with h | h | h | h <;> simp [isTypeValid, h]
    have he1n : ¬ t1.name = "__error__" := by
      rcases hn1 with h | h | h | h <;> (rw [h]; decide)
    have he2n : ¬ t2.name = "__error__" := by
      rcases hn2 with h | h | h | h <;> (rw [h]; decide)
    have ho1 : ¬ t1.name = "Object" := by
      rcases hn1 with h | h | h | h <;> (rw [h]; decide)
    have ho2 : ¬ t2.name = "Object" := by
      rcases hn2 with h | h | h | h <;> (rw [h]; decide)
    have hc12 : t1.conformsTo t2 defs = false :=
      conformsTo_from_primitive_false defs t1 t2 hk1 he1n (fun hc => hne hc.symm) he2n ho2
    have hc21 : t2.conformsTo t1 defs = false :=
      conformsTo_from_primitive_false defs t2 t1 hk2 he2n hne he1n ho1
    rw [findCommonAncestor,
      if_neg (by simp [he1, he2] : ¬ ((t1.isError : Prop) ∨ (t2.isError : Prop))),
      if_neg (by simp [hv1, hv2] :
        ¬ (¬ (isTypeValid defs t1.name : Prop) ∨ ¬ (isTypeValid defs t2.name : Prop))),
      if_neg hne,
      if_neg (by simp [hc12] : ¬ (t1.conformsTo t2 defs : Prop)),
      if_neg (by simp [hc21] : ¬ (t2.conformsTo t1 defs : Prop)),
      if_pos (Or.inl hk1)]
  · intro he1 he2 hv1 hv2
    exact (findCommonAncestor_main defs hwf t1 t2 h1 h2 he1 he2 hv1 hv2).2

/-- A three-class table (`Object`, `A extends Object`, `B extends A`) for the
C5 witness. -/
def c5Defs : Defs :=
  [("Object", objectClassDef),
   ("A", ⟨"A", "Object", [], []⟩),
   ("B", ⟨"B", "A", [], []⟩)]

/-- Claim C5 witness: the amended statement applied at the concrete table
`c5Defs`, on the class pair `B`/`A` (commutativity, conformance to the join,
idempotence) and on the primitive pair `int32`/`bool` (distinct primitives
join at `Object`) — all hypotheses discharged concretely. -/
theorem C5_join_properties_witness :
    findCommonAncestor c5Defs ⟨"B", Kind.CLASS⟩ ⟨"A", Kind.CLASS⟩ =
      findCommonAncestor c5Defs ⟨"A", Kind.CLASS⟩ ⟨"B", Kind.CLASS⟩ ∧
    (⟨"B", Kind.CLASS⟩ : Ty).conformsTo
      (findCommonAncestor c5Defs ⟨"B", Kind.CLASS⟩ ⟨"A", Kind.CLASS⟩) c5Defs = true ∧
    findCommonAncestor c5Defs ⟨"B", Kind.CLASS⟩ ⟨"B", Kind.CLASS⟩ =
      ⟨"B", Kind.CLASS⟩ ∧
    findCommonAncestor c5Defs Ty.Int32 Ty.Boolean = Ty.ObjectT := by
  have hwf : WFDefs c5Defs := by
    intro e he
    simp only [c5Defs, List.mem_cons, List.not_mem_nil, or_false] at he
    rcases he with rfl | rfl | rfl
    · exact ⟨["Object"], by decide, by decide⟩
    · exact ⟨["A", "Object"], by decide, by decide⟩
    · exact ⟨["B", "A", "Object"], by decide, by decide⟩
  have h := C5_join_properties c5Defs hwf ⟨"B", Kind.CLASS⟩ ⟨"A", Kind.CLASS⟩
    (by rw [Resolved]; decide) (by rw [Resolved]; decide)
  have hp := C5_join_properties c5Defs hwf Ty.Int32 Ty.Boolean
    (by rw [Resolved]; decide) (by rw [Resolved]; decide)
  exact ⟨h.1, ((h.2.2.2.2 (by decide) (by decide) (by decide) (by decide)).1),
    h.2.2.1 (by decide) (by decide),
    hp.2.2.2.1 (by decide) (by decide) (by decide) (by decide) (by decide)⟩

/-- Once the parent-chain walk has stopped it stays stopped. -/
theorem walkSeq_isSome_mono (defs : Defs) (name : String) :
    ∀ i j, i ≤ j → (walkSeq defs name j).isSome = true →
      (walkSeq defs name i).isSome = true := by
  intro i j hle hj
  by_contra hi
  have hnone : walkSeq defs name i = none := by
    cases h : walkSeq defs name i with
    | none => rfl
    | some c => rw [h] at hi; simp at hi
  have hall : ∀ m, walkSeq defs name (i + m) = none := by
    intro m
    induction m with
    | zero => simpa using hnone
    | succ m ih =>
        have : i + (m + 1) = (i + m) + 1 := by omega
        rw [this, walkSeq, ih]
  obtain ⟨m, rfl⟩ : ∃ m, j = i + m := ⟨j - i, by omega⟩
  rw [hall m] at hj
  simp at hj

/-- What a successful chain step says about the stepped-from name. -/
theorem chainStep_some (defs : Defs) (c p : String) (h : chainStep defs c = some p) :
    ¬ c = "Object" ∧ ¬ c = "" ∧ ∃ d, lookupMap defs c = some d ∧ d.parent = p := by
  rw [chainStep] at h
  by_cases hc : c = "Object" ∨ c = ""
  · rw [if_pos hc] at h; cases h
  · rw [if_neg hc] at h
    push_neg at hc
    cases hl : lookupMap defs c with
    | none => rw [hl] at h; cases h
    | some d => rw [hl] at h; exact ⟨hc.1, hc.2, d, rfl, Option.some.inj h⟩

/-- The cycle-detection loop of `hasCyclicInheritance` returns `true` from
any intermediate state of a walk whose first repeat is at index `j₀`. -/
theorem hasCyclicLoop_detects (defs : Defs) (name : String) (j₀ : Nat)
    (hmin : ∀ k, k < j₀ → ¬ ∃ i, i < k ∧ walkSeq defs name i = walkSeq defs name k)
    (hrep : ∃ i, i < j₀ ∧ walkSeq defs name i = walkSeq defs name j₀)
    (hsome : (walkSeq defs name j₀).isSome = true) :
    ∀ m k visited c fuel, k + m = j₀ →
      walkSeq defs name k = some c →
      (∀ a, a ∈ visited ↔ ∃ i, i < k ∧ walkSeq defs name i = some a) →
      j₀ - k < fuel →
      hasCyclicLoop defs name fuel visited c = true := by
  intro m
  induction m with
  | zero =>
      intro k visited c fuel hk hwk hvis hfuel
      have hkj : k = j₀ := by omega
      subst hkj
      obtain ⟨i₀, hi₀, heq⟩ := hrep
      obtain ⟨fuel₂, rfl⟩ : ∃ f, fuel = f + 1 := ⟨fuel - 1, by omega⟩
      have hwi₀ : walkSeq defs name i₀ = some c := by rw [heq, hwk]
      have hnext : (walkSeq defs name (i₀ + 1)).isSome = true :=
        walkSeq_isSome_mono defs name (i₀ + 1) k (by omega) (by rw [hwk]; rfl)
      obtain ⟨p, hp⟩ := Option.isSome_iff_exists.mp hnext
      have hstep : chainStep defs c = some p := by
        rw [walkSeq, hwi₀] at hp; exact hp
      obtain ⟨hco, hce, _⟩ := chainStep_some defs c p hstep
      rw [hasCyclicLoop, if_neg (by simp [hco, hce]),
        if_pos ((hvis c).mpr ⟨i₀, hi₀, hwi₀⟩)]
  | succ m ih =>
      intro k visited c fuel hk hwk hvis hfuel
      have hkj : k < j₀ := by omega
      obtain ⟨fuel₂, rfl⟩ : ∃ f, fuel = f + 1 := ⟨fuel - 1, by omega⟩
      have hnext : (walkSeq defs name (k + 1)).isSome = true :=
        walkSeq_isSome_mono defs name (k + 1) j₀ (by omega) hsome
      obtain ⟨p, hp⟩ := Option.isSome_iff_exists.mp hnext
      have hstep : chainStep defs c = some p := by
        rw [walkSeq, hwk] at hp; exact hp
      obtain ⟨hco, hce, d, hd, hdp⟩ := chainStep_some defs c p hstep
      rw [hasCyclicLoop, if_neg (by simp [hco, hce])]
      have hnotvis : ¬ c ∈ visited := by
        intro hc
        obtain ⟨i, hik, hwi⟩ := (hvis c).mp hc
        exact hmin k hkj ⟨i, hik, by rw [hwi, hwk]⟩
      rw [if_neg hnotvis]
      simp only [hd]
      by_cases hpn : d.parent = name
      · simp [hpn]
      · rw [if_neg hpn]
        apply ih (k + 1) (c :: visited) d.parent fuel₂ (by omega)
        · rw [hdp]
          rw [walkSeq, hwk]
          exact hstep
        · intro a
          constructor
          · intro ha
            rcases List.mem_cons.mp ha with rfl | ha₂
            · exact ⟨k, by omega, hwk⟩
            · obtain ⟨i, hik, hwi⟩ := (hvis a).mp ha₂
              exact ⟨i, by omega, hwi⟩
          · rintro ⟨i, hik, hwi⟩
            by_cases hik₂ : i < k
            · exact List.mem_cons_of_mem c ((hvis a).mpr ⟨i, hik₂, hwi⟩)
            · have hie : i = k := by omega
              subst hie
              have hac : a = c := by
                rw [hwk] at hwi
                exact (Option.some.inj hwi).symm
              simp [hac]
        · omega

/-- A duplicate-free list of keys of a map is no longer than the map. -/
theorem nodup_keys_length {α : Type} (defs : List (String × α)) (L : List String)
    (hnd : L.Nodup) (hsub : ∀ x ∈ L, ∃ d, lookupMap defs x = some d) :
    L.length ≤ defs.length := by
  have hsub₂ : L ⊆ defs.map Prod.fst := by
    intro x hx
    obtain ⟨d, hd⟩ := hsub x hx
    exact lookupMap_mem_keys defs x d hd
  have hc1 : L.toFinset.card = L.length := List.toFinset_card_of_nodup hnd
  have hc2 : L.toFinset ⊆ (defs.map Prod.fst).toFinset := by
    intro x hx
    rw [List.mem_toFinset] at hx ⊢
    exact hsub₂ hx
  calc L.length = L.toFinset.card := hc1.symm
    _ ≤ (defs.map Prod.fst).toFinset.card := Finset.card_le_card hc2
    _ ≤ (defs.map Prod.fst).length := List.toFinset_card_le _
    _ = defs.length := List.length_map _ _

/-- A revisiting parent chain is detected by `hasCyclicInheritance`'s loop
with the fuel the embedding gives it. -/
theorem hasCyclic_of_revisits (defs : Defs) (name : String)
    (hrev : chainRevisits defs name) :
    hasCyclicLoop defs name (defs.length + 1) [] name = true := by
  obtain ⟨i, j, hij, hsome, heq⟩ := hrev
  have hP : ∃ n, (walkSeq defs name n).isSome = true ∧
      ∃ i₂, i₂ < n ∧ walkSeq defs name i₂ = walkSeq defs name n := by
    refine ⟨j, ?_, i, hij, heq⟩
    rw [← heq]
    exact hsome
  obtain ⟨hj₀some, hj₀rep⟩ := Nat.find_spec hP
  have hmin : ∀ k, k < Nat.find hP →
      ¬ ∃ i₂, i₂ < k ∧ walkSeq defs name i₂ = walkSeq defs name k := by
    intro k hk hc
    have hksome : (walkSeq defs name k).isSome = true :=
      walkSeq_isSome_mono defs name k (Nat.find hP) (by omega) hj₀some
    exact Nat.find_min hP hk ⟨hksome, hc⟩
  -- bound the first repeat by the table size
  have hbound : Nat.find hP ≤ defs.length := by
    set j₀ := Nat.find hP with hj₀def
    have hvals : ∀ k, k < j₀ → ∃ c, walkSeq defs name k = some c := by
      intro k hk
      exact Option.isSome_iff_exists.mp
        (walkSeq_isSome_mono defs name k j₀ (by omega) hj₀some)
    have hL : ((List.range j₀).map (fun k => (walkSeq defs name k).getD "")).Nodup := by
      refine List.Nodup.map_on ?_ (List.nodup_range _)
      intro a ha b hb hfab
      rw [List.mem_range] at ha hb
      by_contra hne
      rcases Nat.lt_or_ge a b with hab | hab
      · obtain ⟨ca, hca⟩ := hvals a ha
        obtain ⟨cb, hcb⟩ := hvals b hb
        refine hmin b hb ⟨a, hab, ?_⟩
        rw [hca, hcb]
        rw [hca, hcb] at hfab
        simpa using hfab
      · have hba : b < a := by omega
        obtain ⟨ca, hca⟩ := hvals a ha
        obtain ⟨cb, hcb⟩ := hvals b hb
        refine hmin a ha ⟨b, hba, ?_⟩
        rw [hca, hcb]
        rw [hca, hcb] at hfab
        simp at hfab
        rw [hfab]
    have hkeys : ∀ x ∈ (List.range j₀).map (fun k => (walkSeq defs name k).getD ""),
        ∃ d, lookupMap defs x = some d := by
      intro x hx
      rw [List.mem_map] at hx
      obtain ⟨k, hk, hval⟩ := hx
      rw [List.mem_range] at hk
      obtain ⟨c, hc⟩ := hvals k hk
      have hxc : x = c := by rw [← hval, hc]; rfl
      have hnext : (walkSeq defs name (k + 1)).isSome = true :=
        walkSeq_isSome_mono defs name (k + 1) j₀ (by omega) hj₀some
      obtain ⟨p, hp⟩ := Option.isSome_iff_exists.mp hnext
      have hstep : chainStep defs c = some p := by
        rw [walkSeq, hc] at hp; exact hp
      obtain ⟨_, _, d, hd, _⟩ := chainStep_some defs c p hstep
      exact ⟨d, by rw [hxc]; exact hd⟩
    have := nodup_keys_length defs _ hL hkeys
    simpa using this
  exact hasCyclicLoop_detects defs name (Nat.find hP) hmin hj₀rep hj₀some
    (Nat.find hP) 0 [] name (defs.length + 1) (by omega) rfl
    (by intro a; simp) (by omega)

/-- `setMap` lookup at the written key. -/
theorem lookupMap_setMap_self {α : Type} (m : List (String × α)) (k : String) (v : α) :
    lookupMap (setMap m k v) k = some v := by
  induction m with
  | nil => simp [setMap, lookupMap]
  | cons e rest ih =>
      rw [setMap]
      by_cases he : e.1 = k
      · rw [if_pos he, lookupMap, if_pos he]
      · rw [if_neg he, lookupMap, if_neg he]
        exact ih

/-- `setMap` lookup at another key. -/
theorem lookupMap_setMap_ne {α : Type} (m : List (String × α)) (k n : String) (v : α)
    (hne : ¬ n = k) : lookupMap (setMap m n v) k = lookupMap m k := by
  induction m with
  | nil => simp [setMap, lookupMap, hne]
  | cons e rest ih =>
      rw [setMap]
      by_cases he : e.1 = n
      · rw [if_pos he, lookupMap, lookupMap]
        have : ¬ e.1 = k := by rw [he]; exact hne
        rw [if_neg this, if_neg this]
      · rw [if_neg he, lookupMap, lookupMap]
        by_cases hek : e.1 = k
        · rw [if_pos hek, if_pos hek]
        · rw [if_neg hek, if_neg hek]
          exact ih

/-- An entry of `setMap`'s result is the written pair or an original entry. -/
theorem setMap_mem {α : Type} (m : List (String × α)) (k : String) (v : α)
    (e : String × α) (h : e ∈ setMap m k v) : e = (k, v) ∨ e ∈ m := by
  induction m with
  | nil => simpa [setMap] using h
  | cons e₂ rest ih =>
      rw [setMap] at h
      by_cases he : e₂.1 = k
      · rw [if_pos he] at h
        rcases List.mem_cons.mp h with rfl | hm
        · left
          rw [← he]
        · right
          exact List.mem_cons_of_mem e₂ hm
      · rw [if_neg he] at h
        rcases List.mem_cons.mp h with rfl | hm
        · right
          exact List.mem_cons_self _ _
        · rcases ih hm with hl | hr
          · exact Or.inl hl
          · exact Or.inr (List.mem_cons_of_mem e₂ hr)

/-- Invariant of `buildClassDefinitions`: every entry is `Object`'s or keyed
by a non-primitive class name equal to the stored definition's own name. -/
theorem build_fold_entries (program : List ClassNode) :
    ∀ (acc : BuildResult × List String),
      (∀ e ∈ acc.1.defs,
        ¬ (e.1 = "int32" ∨ e.1 = "bool" ∨ e.1 = "string" ∨ e.1 = "unit") ∧
        e.2.name = e.1) →
      ∀ e ∈ (List.foldl buildStep acc program).1.defs,
        ¬ (e.1 = "int32" ∨ e.1 = "bool" ∨ e.1 = "string" ∨ e.1 = "unit") ∧
        e.2.name = e.1 := by
  induction program with
  | nil => intro acc hacc e he; exact hacc e he
  | cons cls rest ih =>
      intro acc hacc e he
      rw [List.foldl_cons] at he
      refine ih (buildStep acc cls) ?_ e he
      intro e₂ he₂
      rw [buildStep] at he₂
      by_cases h1 : cls.name = "int32" ∨ cls.name = "bool" ∨ cls.name = "string" ∨
          cls.name = "unit"
      · rw [if_pos h1] at he₂
        exact hacc e₂ he₂
      · rw [if_neg h1] at he₂
        by_cases h2 : cls.name = "Object"
        · rw [if_pos h2] at he₂
          exact hacc e₂ he₂
        · rw [if_neg h2] at he₂
          by_cases h3 : cls.name ∈ acc.2
          · rw [if_pos h3] at he₂
            exact hacc e₂ he₂
          · rw [if_neg h3] at he₂
            simp only at he₂
            rcases setMap_mem acc.1.defs cls.name _ e₂ he₂ with rfl | hm
            · exact ⟨h1, rfl⟩
            · exact hacc e₂ hm

/-- No `buildClassDefinitions` key is a primitive name, and every stored
definition's name is its key. -/
theorem build_entries (program : List ClassNode) :
    ∀ e ∈ (buildClassDefinitions program).defs,
      ¬ (e.1 = "int32" ∨ e.1 = "bool" ∨ e.1 = "string" ∨ e.1 = "unit") ∧
      e.2.name = e.1 := by
  intro e he
  refine build_fold_entries program _ ?_ e he
  intro e₂ he₂
  simp only [List.mem_singleton] at he₂
  subst he₂
  exact ⟨by simp, rfl⟩

/-- Errors only accumulate along the class-definition build. -/
theorem build_fold_errors_prefix (program : List ClassNode) :
    ∀ (acc : BuildResult × List String),
      acc.1.errors <+: (List.foldl buildStep acc program).1.errors := by
  induction program with
  | nil => intro acc; exact List.prefix_refl _
  | cons cls rest ih =>
      intro acc
      have hstep : acc.1.errors <+: (buildStep acc cls).1.errors := by
        rw [buildStep]
        by_cases h1 : cls.name = "int32" ∨ cls.name = "bool" ∨ cls.name = "string" ∨
            cls.name = "unit"
        · rw [if_pos h1]; exact ⟨_, rfl⟩
        · rw [if_neg h1]
          by_cases h2 : cls.name = "Object"
          · rw [if_pos h2]; exact ⟨_, rfl⟩
          · rw [if_neg h2]
            by_cases h3 : cls.name ∈ acc.2
            · rw [if_pos h3]; exact ⟨_, rfl⟩
            · rw [if_neg h3]
      rw [List.foldl_cons]
      exact hstep.trans (ih (buildStep acc cls))

/-- A key registered in `defined_classes` keeps its definition through the
rest of the build (later classes with the same name are rejected as
duplicates). -/
theorem build_fold_preserve (program : List ClassNode) :
    ∀ (acc : BuildResult × List String) (k : String) (v : ClassDef),
      k ∈ acc.2 → lookupMap acc.1.defs k = some v →
      lookupMap (List.foldl buildStep acc program).1.defs k = some v := by
  induction program with
  | nil => intro acc k v _ hl; exact hl
  | cons cls rest ih =>
      intro acc k v hk hl
      rw [List.foldl_cons]
      rw [buildStep]
      by_cases h1 : cls.name = "int32" ∨ cls.name = "bool" ∨ cls.name = "string" ∨
          cls.name = "unit"
      · rw [if_pos h1]; exact ih _ k v hk hl
      · rw [if_neg h1]
        by_cases h2 : cls.name = "Object"
        · rw [if_pos h2]; exact ih _ k v hk hl
        · rw [if_neg h2]
          by_cases h3 : cls.name ∈ acc.2
          · rw [if_pos h3]; exact ih _ k v hk hl
          · rw [if_neg h3]
            refine ih _ k v (List.mem_cons_of_mem _ hk) ?_
            simp only
            have hne : ¬ cls.name = k := fun hc => h3 (hc ▸ hk)
            rw [lookupMap_setMap_ne acc.1.defs k cls.name _ hne]
            exact hl

/-- On an error-free build, every program class ends with its fresh
definition (name, defaulted parent, no members yet) in the class table. -/
theorem build_fold_clean_lookup :
    ∀ (rest : List ClassNode) (acc : BuildResult × List String) (cls : ClassNode),
      cls ∈ rest →
      (List.foldl buildStep acc rest).1.errors = acc.1.errors →
      lookupMap (List.foldl buildStep acc rest).1.defs cls.name =
        some ⟨cls.name, if cls.parent = "" then "Object" else cls.parent, [], []⟩ := by
  intro rest
  induction rest with
  | nil => intro acc cls hc; simp at hc
  | cons c rest₂ ih =>
      intro acc cls hc herr
      rw [List.foldl_cons] at herr ⊢
      have hpre₁ : acc.1.errors <+: (buildStep acc c).1.errors := by
        have := build_fold_errors_prefix [c] acc
        simpa using this
      have hpre₂ : (buildStep acc c).1.errors <+:
          (List.foldl buildStep (buildStep acc c) rest₂).1.errors :=
        build_fold_errors_prefix rest₂ (buildStep acc c)
      have hstep_err : (buildStep acc c).1.errors = acc.1.errors := by
        have h₁ := hpre₁.length_le
        have h₂ := hpre₂.length_le
        rw [herr] at h₂
        have hlen : acc.1.errors.length = (buildStep acc c).1.errors.length := by omega
        exact (List.IsPrefix.eq_of_length hpre₁ hlen).symm
      have hsucc : ¬ (c.name = "int32" ∨ c.name = "bool" ∨ c.name = "string" ∨
            c.name = "unit") ∧ ¬ c.name = "Object" ∧ ¬ c.name ∈ acc.2 := by
        by_contra hcon
        rw [buildStep] at hstep_err
        by_cases h1 : c.name = "int32" ∨ c.name = "bool" ∨ c.name = "string" ∨
            c.name = "unit"
        · rw [if_pos h1] at hstep_err
          simp at hstep_err
        · rw [if_neg h1] at hstep_err
          by_cases h2 : c.name = "Object"
          · rw [if_pos h2] at hstep_err
            simp at hstep_err
          · rw [if_neg h2] at hstep_err
            by_cases h3 : c.name ∈ acc.2
            · rw [if_pos h3] at hstep_err
              simp at hstep_err
            · exact hcon ⟨h1, h2, h3⟩
      obtain ⟨h1, h2, h3⟩ := hsucc
      have hstep : buildStep acc c =
          (⟨acc.1.class_table ++ [c],
            setMap acc.1.defs c.name
              ⟨c.name, if c.parent = "" then "Object" else c.parent, [], []⟩,
            acc.1.errors⟩, c.name :: acc.2) := by
        rw [buildStep, if_neg h1, if_neg h2, if_neg h3]
      rcases List.mem_cons.mp hc with rfl | hc₂
      · rw [hstep]
        refine build_fold_preserve rest₂ _ cls.name _ (List.mem_cons_self _ _) ?_
        simp only
        exact lookupMap_setMap_self _ _ _
      · refine ih (buildStep acc c) cls hc₂ ?_
        rw [herr, hstep_err]

/-- Membership in a fold that appends per-entry messages. -/
theorem foldl_append_mem {α : Type} (f : α → List String) (msg : String) :
    ∀ (l : List α) (init : List String),
      (msg ∈ init ∨ ∃ e ∈ l, msg ∈ f e) →
      msg ∈ l.foldl (fun errs e => errs ++ f e) init := by
  intro l
  induction l with
  | nil =>
      intro init h
      rcases h with h | ⟨e, he, _⟩
      · exact h
      · simp at he
  | cons a rest ih =>
      intro init h
      rw [List.foldl_cons]
      refine ih (init ++ f a) ?_
      rcases h with h | ⟨e, he, hmsg⟩
      · exact Or.inl (List.mem_append_left _ h)
      · rcases List.mem_cons.mp he with rfl | he₂
        · exact Or.inl (List.mem_append_right _ hmsg)
        · exact Or.inr ⟨e, he₂, hmsg⟩

/-- C7.  Amended: on a program whose class-definition build succeeds (no
redefinition or reserved-name errors), a class whose parent chain revisits a
name makes `validateInheritanceHierarchy` report its cyclic-inheritance error,
and `analyze` stops before `collectMethodsAndFields` and returns false.  (The
build-success hypothesis is needed: a build error already halts `analyze`
before hierarchy validation ever runs, so no cycle error is reported then.) -/
theorem C7_cycle_reported (program : List ClassNode) (cls : ClassNode)
    (hcls : cls ∈ program)
    (hclean : (buildClassDefinitions program).errors = [])
    (hrev : chainRevisits (buildClassDefinitions program).defs cls.name) :
    ("Class " ++ cls.name ++ " has cyclic inheritance") ∈ (analyze program).errors ∧
    (analyze program).ranCollect = false ∧
    (analyze program).returnValue = false := by
  have hlook : lookupMap (buildClassDefinitions program).defs cls.name =
      some ⟨cls.name, if cls.parent = "" then "Object" else cls.parent, [], []⟩ := by
    refine build_fold_clean_lookup program _ cls hcls ?_
    exact hclean
  set pOr : String := if cls.parent = "" then "Object" else cls.parent with hpOr
  set centry : ClassDef := ⟨cls.name, pOr, [], []⟩ with hcentry
  set defs : Defs := (buildClassDefinitions program).defs with hdefs
  have hmem : (cls.name, centry) ∈ defs := lookupMap_mem defs cls.name centry hlook
  obtain ⟨i, j, hij, hisome, heq⟩ := hrev
  have hjsome : (walkSeq defs cls.name j).isSome = true := by
    rw [← heq]; exact hisome
  have h1some : (walkSeq defs cls.name 1).isSome = true :=
    walkSeq_isSome_mono defs cls.name 1 j (by omega) hjsome
  have hwalk1 : walkSeq defs cls.name 1 = chainStep defs cls.name := by
    rw [walkSeq, walkSeq]
  obtain ⟨p₁, hp₁⟩ : ∃ p, chainStep defs cls.name = some p := by
    rw [hwalk1] at h1some
    exact Option.isSome_iff_exists.mp h1some
  obtain ⟨hno, hne, d₀, hd₀, hd₀p⟩ := chainStep_some defs cls.name p₁ hp₁
  have hd₀c : d₀ = centry := by
    rw [hlook] at hd₀
    exact (Option.some.inj hd₀).symm
  have hp₁pOr : p₁ = pOr := by
    rw [hd₀c] at hd₀p
    exact hd₀p.symm
  have hparent_def : ∃ d₁, lookupMap defs pOr = some d₁ := by
    by_cases hself : pOr = cls.name
    · exact ⟨centry, by rw [hself]; exact hlook⟩
    · have hj2 : 2 ≤ j := by
        by_contra hj2
        have hj1 : j = 1 := by omega
        have hi0 : i = 0 := by omega
        rw [hi0, hj1, hwalk1, hp₁] at heq
        rw [walkSeq] at heq
        have : cls.name = p₁ := Option.some.inj heq
        rw [hp₁pOr] at this
        exact hself this.symm
      have h2some : (walkSeq defs cls.name 2).isSome = true :=
        walkSeq_isSome_mono defs cls.name 2 j hj2 hjsome
      have hwalk2 : walkSeq defs cls.name 2 = chainStep defs pOr := by
        rw [walkSeq, hwalk1, hp₁, hp₁pOr]
      rw [hwalk2] at h2some
      obtain ⟨p₂, hp₂⟩ := Option.isSome_iff_exists.mp h2some
      obtain ⟨_, _, d₁, hd₁, _⟩ := chainStep_some defs pOr p₂ hp₂
      exact ⟨d₁, hd₁⟩
  obtain ⟨d₁, hd₁⟩ := hparent_def
  have hparent_nonprim : ¬ (pOr = "int32" ∨ pOr = "bool" ∨ pOr = "string" ∨
      pOr = "unit") := by
    have := build_entries program (pOr, d₁) (lookupMap_mem defs pOr d₁ hd₁)
    exact this.1
  have hcyc : centry.hasCyclicInheritance defs = true := by
    rw [ClassDef.hasCyclicInheritance]
    exact hasCyclic_of_revisits defs cls.name ⟨i, j, hij, hisome, heq⟩
  have hventry : validateEntry defs (cls.name, centry) =
      ["Class " ++ cls.name ++ " has cyclic inheritance"] := by
    rw [validateEntry]
    simp only
    rw [if_neg hno]
    rw [if_neg hparent_nonprim]
    rw [if_neg (by rw [hd₁]; simp), if_pos hcyc]
  have hval : ("Class " ++ cls.name ++ " has cyclic inheritance") ∈
      validateInheritanceHierarchy defs := by
    rw [validateInheritanceHierarchy]
    refine foldl_append_mem (validateEntry defs) _ defs [] ?_
    refine Or.inr ⟨(cls.name, centry), hmem, ?_⟩
    rw [hventry]
    exact List.mem_singleton.mpr rfl
  have hvne : ¬ (buildClassDefinitions program).errors ++
      validateInheritanceHierarchy defs = [] := by
    intro hc
    rw [hclean, List.nil_append] at hc
    rw [hc] at hval
    simp at hval
  have hana : analyze program = ⟨false, (buildClassDefinitions program).errors ++
      validateInheritanceHierarchy defs, true, false⟩ := by
    rw [analyze]
    simp only
    rw [if_neg (not_not_intro hclean), if_pos hvne]
  rw [hana]
  exact ⟨List.mem_append_right _ hval, rfl, rfl⟩

/-- A program defining `A extends A` twice: its parent chain revisits `A`. -/
def progDup : List ClassNode := [⟨"A", "A", [], []⟩, ⟨"A", "", [], []⟩]

/-- C7.  Counterexample: `progDup` contains a class whose parent chain
revisits a name, yet `analyze` stops at the build phase with only the
redefinition error — hierarchy validation never runs and no cycle error is
reported.  The pipeline does halt before member resolution, but not with the
claimed cycle diagnostic. -/
theorem C7_counterexample :
    (∃ cls ∈ progDup, cls.name = "A") ∧
    chainRevisits (buildClassDefinitions progDup).defs "A" ∧
    analyze progDup = ⟨false, ["Redefinition of class A"], false, false⟩ ∧
    ¬ ("Class A has cyclic inheritance") ∈ (analyze progDup).errors := by
  refine ⟨⟨⟨"A", "A", [], []⟩, List.mem_cons_self _ _, rfl⟩,
    ⟨0, 1, by omega, rfl, rfl⟩, by decide, by decide⟩

/-- A program whose single class extends itself. -/
def progSelf : List ClassNode := [⟨"A", "A", [], []⟩]

/-- C7 witness: on `progSelf` the amended theorem's hypotheses hold
concretely and `analyze` reports the cycle without running collection. -/
theorem C7_cycle_reported_witness :
    (⟨"A", "A", [], []⟩ : ClassNode) ∈ progSelf ∧
    (buildClassDefinitions progSelf).errors = [] ∧
    (("Class A has cyclic inheritance") ∈ (analyze progSelf).errors ∧
     (analyze progSelf).ranCollect = false ∧
     (analyze progSelf).returnValue = false) :=
  ⟨List.mem_cons_self _ _, rfl,
   C7_cycle_reported progSelf ⟨"A", "A", [], []⟩ (List.mem_cons_self _ _) rfl
     ⟨0, 1, by omega, rfl, rfl⟩⟩

/-- The add-or-override method fold only appends: the resulting slot list is
the parent table followed by fresh names of this class. -/
theorem vtMethodFold_table (C : String) :
    ∀ (methods : List (String × MethodSignature)) (tbl : List String)
      (imp : List (String × String)),
      ∃ extra, (methods.foldl (vtMethodStep C) (tbl, imp)).1 = tbl ++ extra ∧
        ∀ m ∈ extra, m ∈ methods.map Prod.fst ∧ ¬ m ∈ tbl := by
  intro methods
  induction methods with
  | nil =>
      intro tbl imp
      exact ⟨[], by simp, by simp⟩
  | cons e rest ih =>
      intro tbl imp
      rw [List.foldl_cons]
      simp only [vtMethodStep]
      by_cases hm : e.1 ∈ tbl
      · rw [if_pos hm]
        obtain ⟨extra, hfold, hextra⟩ := ih tbl (setMap imp e.1 (C ++ "__" ++ e.1))
        refine ⟨extra, hfold, ?_⟩
        intro m hm₂
        obtain ⟨h₁, h₂⟩ := hextra m hm₂
        exact ⟨by rw [List.map_cons]; exact List.mem_cons_of_mem _ h₁, h₂⟩
      · rw [if_neg hm]
        obtain ⟨extra, hfold, hextra⟩ := ih (tbl ++ [e.1]) (setMap imp e.1 (C ++ "__" ++ e.1))
        refine ⟨e.1 :: extra, ?_, ?_⟩
        · rw [hfold, List.append_assoc, List.singleton_append]
        · intro m hm₂
          rcases List.mem_cons.mp hm₂ with rfl | hm₃
          · exact ⟨by rw [List.map_cons]; exact List.mem_cons_self _ _, hm⟩
          · obtain ⟨h₁, h₂⟩ := hextra m hm₃
            refine ⟨by rw [List.map_cons]; exact List.mem_cons_of_mem _ h₁, ?_⟩
            intro hc
            exact h₂ (List.mem_append_left _ hc)

/-- Every one of the class's own method names ends up in its slot list. -/
theorem vtMethodFold_mem (C : String) :
    ∀ (methods : List (String × MethodSignature)) (tbl : List String)
      (imp : List (String × String)) (e : String × MethodSignature),
      e ∈ methods → e.1 ∈ (methods.foldl (vtMethodStep C) (tbl, imp)).1 := by
  intro methods
  induction methods with
  | nil =>
      intro tbl imp e he
      simp at he
  | cons a rest ih =>
      intro tbl imp e he
      rw [List.foldl_cons]
      simp only [vtMethodStep]
      rcases List.mem_cons.mp he with rfl | he₂
      · by_cases hm : e.1 ∈ tbl
        · rw [if_pos hm]
          obtain ⟨extra, hfold, _⟩ :=
            vtMethodFold_table C rest tbl (setMap imp e.1 (C ++ "__" ++ e.1))
          rw [hfold]
          exact List.mem_append_left _ hm
        · rw [if_neg hm]
          obtain ⟨extra, hfold, _⟩ :=
            vtMethodFold_table C rest (tbl ++ [e.1]) (setMap imp e.1 (C ++ "__" ++ e.1))
          rw [hfold]
          exact List.mem_append_left _
            (List.mem_append_right _ (List.mem_singleton.mpr rfl))
      · by_cases hm : a.1 ∈ tbl
        · rw [if_pos hm]
          exact ih tbl _ e he₂
        · rw [if_neg hm]
          exact ih (tbl ++ [a.1]) _ e he₂

/-- The implementation map after the method fold: own method names point to
this class's functions, all other names keep the inherited implementation. -/
theorem vtMethodFold_impl (C : String) :
    ∀ (methods : List (String × MethodSignature)) (tbl : List String)
      (imp : List (String × String)) (k : String),
      (k ∈ methods.map Prod.fst →
        lookupMap (methods.foldl (vtMethodStep C) (tbl, imp)).2 k =
          some (C ++ "__" ++ k)) ∧
      (¬ k ∈ methods.map Prod.fst →
        lookupMap (methods.foldl (vtMethodStep C) (tbl, imp)).2 k = lookupMap imp k) := by
  intro methods
  induction methods with
  | nil =>
      intro tbl imp k
      refine ⟨fun h => ?_, fun _ => rfl⟩
      simp at h
  | cons a rest ih =>
      intro tbl imp k
      rw [List.foldl_cons]
      simp only [vtMethodStep]
      have hcore : ∀ tbl₂ : List String,
          (k ∈ (a :: rest).map Prod.fst →
            lookupMap (rest.foldl (vtMethodStep C)
              (tbl₂, setMap imp a.1 (C ++ "__" ++ a.1))).2 k =
              some (C ++ "__" ++ k)) ∧
          (¬ k ∈ (a :: rest).map Prod.fst →
            lookupMap (rest.foldl (vtMethodStep C)
              (tbl₂, setMap imp a.1 (C ++ "__" ++ a.1))).2 k = lookupMap imp k) := by
        intro tbl₂
        constructor
        · intro hk
          by_cases hkr : k ∈ rest.map Prod.fst
          · exact (ih tbl₂ _ k).1 hkr
          · have hka : k = a.1 := by
              rw [List.map_cons] at hk
              rcases List.mem_cons.mp hk with h | h
              · exact h
              · exact absurd h hkr
            rw [(ih tbl₂ _ k).2 hkr]
            subst hka
            exact lookupMap_setMap_self imp a.1 _
        · intro hk
          rw [List.map_cons] at hk
          have hk₁ : ¬ k = a.1 := fun hc => hk (List.mem_cons.mpr (Or.inl hc))
          have hk₂ : ¬ k ∈ rest.map Prod.fst :=
            fun hc => hk (List.mem_cons.mpr (Or.inr hc))
          rw [(ih tbl₂ _ k).2 hk₂]
          exact lookupMap_setMap_ne imp k a.1 _ (fun hc => hk₁ hc.symm)
      by_cases hm : a.1 ∈ tbl
      · rw [if_pos hm]
        exact hcore tbl
      · rw [if_neg hm]
        exact hcore (tbl ++ [a.1])

/-- A vtable step for another class name leaves a class's table and
implementations untouched. -/
theorem vtStep_preserve (sf : String) (st : VTState) (cn : String) (cd : ClassDef)
    (k : String) (hne : ¬ cn = k) :
    lookupMap (vtStep sf st (cn, cd)).tables k = lookupMap st.tables k ∧
    lookupMap (vtStep sf st (cn, cd)).impls k = lookupMap st.impls k := by
  simp only [vtStep]
  by_cases h1 : cn = "Object" ∨ cn = "int32" ∨ cn = "bool" ∨ cn = "string" ∨ cn = "unit"
  · rw [if_pos h1]
    exact ⟨rfl, rfl⟩
  · rw [if_neg h1]
    cases hl : lookupMap st.tables (if cd.parent = "" then "Object" else cd.parent) with
    | none => exact ⟨rfl, rfl⟩
    | some pt =>
        exact ⟨lookupMap_setMap_ne st.tables k cn _ hne,
               lookupMap_setMap_ne st.impls k cn _ hne⟩

/-- Folding the vtable step over entries with other keys preserves a class's
table and implementations. -/
theorem vtFold_preserve (sf : String) :
    ∀ (post : List (String × ClassDef)) (st : VTState) (k : String),
      (∀ e ∈ post, ¬ e.1 = k) →
      lookupMap (List.foldl (vtStep sf) st post).tables k = lookupMap st.tables k ∧
      lookupMap (List.foldl (vtStep sf) st post).impls k = lookupMap st.impls k := by
  intro post
  induction post with
  | nil =>
      intro st k _
      exact ⟨rfl, rfl⟩
  | cons e rest ih =>
      intro st k hk
      obtain ⟨cn, cd⟩ := e
      rw [List.foldl_cons]
      obtain ⟨ht, hi⟩ := ih (vtStep sf st (cn, cd)) k
        (fun e₂ he₂ => hk e₂ (List.mem_cons_of_mem _ he₂))
      obtain ⟨ht₂, hi₂⟩ := vtStep_preserve sf st cn cd k
        (hk (cn, cd) (List.mem_cons_self _ _))
      exact ⟨ht.trans ht₂, hi.trans hi₂⟩

/-- C3.  Amended: the vtable construction is order-dependent (see the
counterexample), but whenever the iteration happens to process a class `C`
after its parent already has a table `pt` with implementations `pimp`, `C`
ends with `pt` as a prefix of its slot list (inherited and overridden methods
keep their slots), its new method names appended at fresh trailing slots, its
own methods implemented by its own `C__`-prefixed functions, and every other
slot's implementation inherited from the parent. -/
theorem C3_vtable_parent_first (sf : String) (pre post : List (String × ClassDef))
    (C : String) (cdef : ClassDef) (pt : List String) (pimp : List (String × String))
    (hC : ¬ (C = "Object" ∨ C = "int32" ∨ C = "bool" ∨ C = "string" ∨ C = "unit"))
    (hpost : ∀ e ∈ post, ¬ e.1 = C)
    (hpt : lookupMap (List.foldl (vtStep sf) initVTState pre).tables
      (if cdef.parent = "" then "Object" else cdef.parent) = some pt)
    (hpimp : (lookupMap (List.foldl (vtStep sf) initVTState pre).impls
      (if cdef.parent = "" then "Object" else cdef.parent)).getD [] = pimp) :
    ∃ tbl imp extra,
      lookupMap (generateClassVTables sf (pre ++ (C, cdef) :: post)).tables C =
        some tbl ∧
      lookupMap (generateClassVTables sf (pre ++ (C, cdef) :: post)).impls C =
        some imp ∧
      tbl = pt ++ extra ∧
      (∀ m ∈ extra, m ∈ cdef.methods.map Prod.fst ∧ ¬ m ∈ pt) ∧
      (∀ e ∈ cdef.methods, e.1 ∈ tbl ∧ lookupMap imp e.1 = some (C ++ "__" ++ e.1)) ∧
      (∀ k, ¬ k ∈ cdef.methods.map Prod.fst → lookupMap imp k = lookupMap pimp k) := by
  rcases hfold : cdef.methods.foldl (vtMethodStep C) (pt, pimp) with ⟨tbl, imp⟩
  have hstep : vtStep sf (List.foldl (vtStep sf) initVTState pre) (C, cdef) =
      ⟨setMap (List.foldl (vtStep sf) initVTState pre).tables C tbl,
       setMap (List.foldl (vtStep sf) initVTState pre).impls C imp,
       (List.foldl (vtStep sf) initVTState pre).errors⟩ := by
    simp only [vtStep]
    rw [if_neg hC]
    simp only [hpt]
    rw [hpimp]
    simp only [hfold]
  have hgen : generateClassVTables sf (pre ++ (C, cdef) :: post) =
      List.foldl (vtStep sf)
        (vtStep sf (List.foldl (vtStep sf) initVTState pre) (C, cdef)) post := by
    rw [generateClassVTables, List.foldl_append, List.foldl_cons]
  obtain ⟨htab, himp₂⟩ := vtFold_preserve sf post
    (vtStep sf (List.foldl (vtStep sf) initVTState pre) (C, cdef)) C hpost
  obtain ⟨extra, hext, hextmem⟩ := vtMethodFold_table C cdef.methods pt pimp
  rw [hfold] at hext
  refine ⟨tbl, imp, extra, ?_, ?_, hext, hextmem, ?_, ?_⟩
  · rw [hgen, htab, hstep]
    exact lookupMap_setMap_self _ _ _
  · rw [hgen, himp₂, hstep]
    exact lookupMap_setMap_self _ _ _
  · intro e he
    have h₁ := vtMethodFold_mem C cdef.methods pt pimp e he
    rw [hfold] at h₁
    have h₂ := (vtMethodFold_impl C cdef.methods pt pimp e.1).1
      (List.mem_map_of_mem Prod.fst he)
    rw [hfold] at h₂
    exact ⟨h₁, h₂⟩
  · intro k hk
    have h₂ := (vtMethodFold_impl C cdef.methods pt pimp k).2 hk
    rw [hfold] at h₂
    exact h₂

/-- Parent-first vtable example: class `A` (method `m`) processed before its
child. -/
def c3Pre : Defs := [("A", ⟨"A", "Object", [], [("m", ⟨"m", [], Ty.Int32⟩)]⟩)]

/-- The child class `B extends A` overriding `m` and adding `n`. -/
def c3Cdef : ClassDef :=
  ⟨"B", "A", [], [("m", ⟨"m", [], Ty.Int32⟩), ("n", ⟨"n", [], Ty.Int32⟩)]⟩

/-- `A`'s slot list after it is processed: `Object`'s slots plus `m`. -/
def c3pt : List String := objectVTableMethods ++ ["m"]

/-- `A`'s implementation map after it is processed. -/
def c3pimp : List (String × String) :=
  objectVTableMethods.map (fun m => (m, "Object__" ++ m)) ++ [("m", "A__m")]

/-- C3 witness: instantiating the parent-first theorem on the concrete
`A`/`B` program, with every hypothesis discharged by evaluation. -/
theorem C3_vtable_parent_first_witness :
    (¬ ("B" = "Object" ∨ "B" = "int32" ∨ "B" = "bool" ∨ "B" = "string" ∨
        "B" = "unit")) ∧
    lookupMap (List.foldl (vtStep "t.vsop") initVTState c3Pre).tables
      (if c3Cdef.parent = "" then "Object" else c3Cdef.parent) = some c3pt ∧
    (∃ tbl imp extra,
      lookupMap (generateClassVTables "t.vsop" (c3Pre ++ ("B", c3Cdef) :: [])).tables
        "B" = some tbl ∧
      lookupMap (generateClassVTables "t.vsop" (c3Pre ++ ("B", c3Cdef) :: [])).impls
        "B" = some imp ∧
      tbl = c3pt ++ extra ∧
      (∀ m ∈ extra, m ∈ c3Cdef.methods.map Prod.fst ∧ ¬ m ∈ c3pt) ∧
      (∀ e ∈ c3Cdef.methods,
        e.1 ∈ tbl ∧ lookupMap imp e.1 = some ("B" ++ "__" ++ e.1)) ∧
      (∀ k, ¬ k ∈ c3Cdef.methods.map Prod.fst →
        lookupMap imp k = lookupMap c3pimp k)) :=
  ⟨by decide, by decide,
   C3_vtable_parent_first "t.vsop" c3Pre [] "B" c3Cdef c3pt c3pimp (by decide)
     (by intro e he; simp at he) (by decide) (by decide)⟩

/-- Class table after hierarchy validation for `P` / `C extends P` (no members
collected yet). -/
def c6Defs : Defs :=
  [("Object", objectClassDef),
   ("P", ⟨"P", "Object", [], []⟩),
   ("C", ⟨"C", "P", [], []⟩)]

/-- `P`'s AST node, declaring `foo(n : int32) : bool`. -/
def c6PNode : ClassNode :=
  ⟨"P", "", [], [⟨"foo", [⟨"n", "int32"⟩], "bool", none⟩]⟩

/-- `C`'s AST node, declaring the incompatible `foo(n : string) : bool`. -/
def c6CNode : ClassNode :=
  ⟨"C", "P", [], [⟨"foo", [⟨"n", "string"⟩], "bool", none⟩]⟩

/-- C6.  Counterexample: collecting members in the iteration order `C` before
`P` (the C++ iterates an `unordered_map`), the parent's `foo` is not yet
installed when `C` is processed, so the incompatible override is silently
installed: no error, and a method lookup for `foo` starting at `C` finds the
child's incompatible signature, not the ancestor's. -/
theorem C6_counterexample :
    (collectMethodsAndFields [c6CNode, c6PNode] c6Defs).2 = [] ∧
    findMethodSignature (collectMethodsAndFields [c6CNode, c6PNode] c6Defs).1
        ((collectMethodsAndFields [c6CNode, c6PNode] c6Defs).1.length + 1) "C" "foo" =
      some ⟨"foo", [⟨"n", Ty.StringT⟩], Ty.Boolean⟩ ∧
    findMethodSignature (collectMethodsAndFields [c6CNode, c6PNode] c6Defs).1
        ((collectMethodsAndFields [c6CNode, c6PNode] c6Defs).1.length + 1) "P" "foo" =
      some ⟨"foo", [⟨"n", Ty.Int32⟩], Ty.Boolean⟩ ∧
    MethodSignature.isCompatible ⟨"foo", [⟨"n", Ty.StringT⟩], Ty.Boolean⟩
      ⟨"foo", [⟨"n", Ty.Int32⟩], Ty.Boolean⟩ = false := by
  decide

/-- C6.  Amended: when the ancestor's signature is visible at the time the
method is processed (`findMethodSignature` from the parent finds it) and the
new signature is not an exact match, the method loop reports the
incompatible-override error, leaves `class_definitions` unchanged (the method
is not installed), and a lookup from the class still finds the ancestor's
signature. -/
theorem C6_incompatible_override_rejected
    (clsName parentName : String) (defs : Defs) (errors localNames : List String)
    (mn : MethodNode) (psig : MethodSignature)
    (formal_params : List FormalParam) (paramNames : List String)
    (errors₂ : List String)
    (hnew : ¬ mn.name ∈ localNames)
    (hformals : mn.formals.foldl (collectFormalStep defs mn.name)
      ([], [], false, errors) = (formal_params, paramNames, false, errors₂))
    (hret : (resolveType defs mn.return_type).isError = false)
    (hpsig : findMethodSignature defs (defs.length + 1) parentName mn.name = some psig)
    (hincomp : MethodSignature.isCompatible
      ⟨mn.name, formal_params, resolveType defs mn.return_type⟩ psig = false)
    (hstart : findMethodSignature defs (defs.length + 1) clsName mn.name = some psig) :
    collectMethodStep clsName parentName (defs, errors, localNames) mn =
      (defs, errors₂ ++ ["Method " ++ mn.name ++ " in class " ++ clsName ++
        " overrides parent method with incompatible signature."],
       mn.name :: localNames) ∧
    findMethodSignature
      (collectMethodStep clsName parentName (defs, errors, localNames) mn).1
      (defs.length + 1) clsName mn.name = some psig := by
  have hmain : collectMethodStep clsName parentName (defs, errors, localNames) mn =
      (defs, errors₂ ++ ["Method " ++ mn.name ++ " in class " ++ clsName ++
        " overrides parent method with incompatible signature."],
       mn.name :: localNames) := by
    simp only [collectMethodStep]
    rw [if_neg hnew, hformals]
    simp only [hret, hpsig, hincomp, Bool.false_eq_true, if_false, not_false_eq_true,
      if_true, ite_false, ite_true]
  refine ⟨hmain, ?_⟩
  rw [hmain]
  exact hstart

/-- Class table at the moment `C`'s methods are collected after `P`'s:
`P.foo(n : int32) : bool` is already installed. -/
def c6DefsP : Defs :=
  [("Object", objectClassDef),
   ("P", ⟨"P", "Object", [], [("foo", ⟨"foo", [⟨"n", Ty.Int32⟩], Ty.Boolean⟩)]⟩),
   ("C", ⟨"C", "P", [], []⟩)]

/-- C6 witness: processing `C`'s incompatible `foo(n : string) : bool` with
`P.foo` already visible reports the override error, installs nothing, and the
lookup from `C` still finds `P`'s signature. -/
theorem C6_incompatible_override_rejected_witness :
    (¬ "foo" ∈ ([] : List String)) ∧
    ([⟨"n", "string"⟩] : List FormalNode).foldl (collectFormalStep c6DefsP "foo")
      ([], [], false, []) = ([⟨"n", Ty.StringT⟩], ["n"], false, []) ∧
    (resolveType c6DefsP "bool").isError = false ∧
    findMethodSignature c6DefsP (c6DefsP.length + 1) "P" "foo" =
      some ⟨"foo", [⟨"n", Ty.Int32⟩], Ty.Boolean⟩ ∧
    MethodSignature.isCompatible ⟨"foo", [⟨"n", Ty.StringT⟩], resolveType c6DefsP "bool"⟩
      ⟨"foo", [⟨"n", Ty.Int32⟩], Ty.Boolean⟩ = false ∧
    findMethodSignature c6DefsP (c6DefsP.length + 1) "C" "foo" =
      some ⟨"foo", [⟨"n", Ty.Int32⟩], Ty.Boolean⟩ ∧
    (collectMethodStep "C" "P" (c6DefsP, [], [])
        ⟨"foo", [⟨"n", "string"⟩], "bool", none⟩ =
      (c6DefsP, [] ++ ["Method " ++ "foo" ++ " in class " ++ "C" ++
        " overrides parent method with incompatible signature."],
       "foo" :: []) ∧
     findMethodSignature
       (collectMethodStep "C" "P" (c6DefsP, [], [])
         ⟨"foo", [⟨"n", "string"⟩], "bool", none⟩).1
       (c6DefsP.length + 1) "C" "foo" = some ⟨"foo", [⟨"n", Ty.Int32⟩], Ty.Boolean⟩) :=
  ⟨by decide, by decide, by decide, by decide, by decide, by decide,
   C6_incompatible_override_rejected "C" "P" c6DefsP [] []
     ⟨"foo", [⟨"n", "string"⟩], "bool", none⟩
     ⟨"foo", [⟨"n", Ty.Int32⟩], Ty.Boolean⟩
     [⟨"n", Ty.StringT⟩] ["n"] []
     (by decide) (by decide) (by decide) (by decide) (by decide) (by decide)⟩
